import Mathlib

/-!
A verification development for the TBDC backend's enrichment pipeline.

The subjects are shallow embeddings of:
* `app/services/llm/deal_analysis_service.py` (response parsing, truncated-JSON
  repair, the two-call analysis flow and its defaults),
* `app/schemas/deal_analysis.py` (the pydantic `DealAnalysis` schema),
* `app/services/zoho/token_manager.py` (credential refresh and the buffer check),
* `app/services/zoho/crm_service.py` (the 401 refresh-and-retry policy),
* `app/services/dynamodb/deal_cache.py` (the per-deal cache).

Machine integers do not occur (Python ints are unbounded); times are modeled
as integer seconds; JSON numbers as exact decimal mantissa/exponent pairs.
Network collaborators are modeled as explicit response arguments; fallible
Python code returns `Except`/`Option`; the async contention around the token
refresh is modeled as a small-step interleaving system driven by an explicit
schedule.
-/

/-! ## JSON values

Model of the Python-side JSON data (`json.loads` output).  Objects keep the
textual key order; lookups take the last binding, matching `dict` overwrite
semantics for duplicate keys.  A number is kept as the exact decimal
`mantissa * 10 ^ exp10` written in the text (the rounding of huge values to
the nearest double is not modeled; every number appearing in the claims is a
small integer, where `float`/`int` arithmetic is exact). -/

inductive Json where
  | null : Json
  | bool (b : Bool) : Json
  | num (mantissa : Int) (exp10 : Int) : Json
  | str (s : String) : Json
  | arr (elems : List Json) : Json
  | obj (members : List (String × Json)) : Json

namespace Json

/-- Last-binding lookup, the model of `dict.__getitem__` after duplicate keys
have overwritten earlier ones. -/
def getKey (m : List (String × Json)) (k : String) : Option Json :=
  match m with
  | [] => none
  | (k0, v0) :: rest =>
    match getKey rest k with
    | some v => some v
    | none => if k0 = k then some v0 else none

/-- Model of `dict.get(k, d)`. -/
def getD (m : List (String × Json)) (k : String) (d : Json) : Json :=
  (getKey m k).getD d

/-- Model of `k in d` for a dict. -/
def hasKey (m : List (String × Json)) (k : String) : Bool :=
  (getKey m k).isSome

/-- A JSON integer literal `n` (mantissa `n`, exponent 0). -/
def int (n : Int) : Json :=
  .num n 0

/-- The exact integer denoted by a JSON number, when it denotes one
(`15` or `15.0` or `1.5e1` all denote the integer 15, `7.5` denotes none).
This is the value pydantic's lax `int` coercion produces from a parsed
`int`/`float`. -/
def numAsInt (mantissa exp10 : Int) : Option Int :=
  if exp10 = 0 then some mantissa
  else if 0 ≤ exp10 then some (mantissa * (10 : Int) ^ exp10.toNat)
  else
    let d : Int := (10 : Int) ^ (-exp10).toNat
    if mantissa % d = 0 then some (mantissa / d) else none

end Json

/-! ## `json.loads`

A faithful model of CPython's strict JSON acceptance on character lists:
whitespace set, string escapes, rejection of raw control characters in
strings, the number grammar (no leading zeros, no bare `1.` / `.5` / `1e`),
and the requirement that nothing but whitespace follows the document. -/

namespace PyJson

def isJsonWs (c : Char) : Bool :=
  c = ' ' || c = '\t' || c = '\n' || c = '\r'

def skipWs (cs : List Char) : List Char :=
  cs.dropWhile isJsonWs

def hexVal (c : Char) : Option Nat :=
  if '0' ≤ c ∧ c ≤ '9' then some (c.toNat - 48)
  else if 'a' ≤ c ∧ c ≤ 'f' then some (c.toNat - 87)
  else if 'A' ≤ c ∧ c ≤ 'F' then some (c.toNat - 55)
  else none

/-- Scan a string literal body (the opening quote already consumed), returning
the decoded string and the rest of the input. -/
def parse_string_body (acc : List Char) : List Char → Option (String × List Char)
  | [] => none
  | c :: rest =>
    if c = '"' then some (⟨acc.reverse⟩, rest)
    else if c = '\\' then
      match rest with
      | [] => none
      | e :: rest2 =>
        if e = '"' then parse_string_body ('"' :: acc) rest2
        else if e = '\\' then parse_string_body ('\\' :: acc) rest2
        else if e = '/' then parse_string_body ('/' :: acc) rest2
        else if e = 'b' then parse_string_body (Char.ofNat 8 :: acc) rest2
        else if e = 'f' then parse_string_body (Char.ofNat 12 :: acc) rest2
        else if e = 'n' then parse_string_body ('\n' :: acc) rest2
        else if e = 'r' then parse_string_body ('\r' :: acc) rest2
        else if e = 't' then parse_string_body ('\t' :: acc) rest2
        else if e = 'u' then
          match rest2 with
          | h1 :: h2 :: h3 :: h4 :: rest6 =>
            match hexVal h1, hexVal h2, hexVal h3, hexVal h4 with
            | some a, some b, some c2, some d =>
              parse_string_body (Char.ofNat (((a * 16 + b) * 16 + c2) * 16 + d) :: acc) rest6
            | _, _, _, _ => none
          | _ => none
        else none
    else if c.toNat < 32 then none
    else parse_string_body (c :: acc) rest

def digitsToNat (ds : List Char) : Nat :=
  ds.foldl (fun a c => a * 10 + (c.toNat - 48)) 0

/-- JSON number grammar: `-? (0 | [1-9][0-9]*) (\.[0-9]+)? ([eE][+-]?[0-9]+)?`.
Returns the mantissa/decimal-exponent pair together with the rest of the input. -/
def parse_number (cs : List Char) : Option ((Int × Int) × List Char) :=
  let signed : Bool × List Char :=
    match cs with
    | c :: rest => if c = '-' then (true, rest) else (false, cs)
    | [] => (false, cs)
  let neg := signed.1
  let cs1 := signed.2
  match cs1 with
  | [] => none
  | d :: _ =>
    if ¬ d.isDigit then none
    else
      let intDigits := if d = '0' then ['0'] else cs1.takeWhile Char.isDigit
      let cs2 := cs1.drop intDigits.length
      let fracPart : Option (List Char × List Char) :=
        match cs2 with
        | c :: rest =>
          if c = '.' then
            let fd := rest.takeWhile Char.isDigit
            if fd = [] then none else some (fd, rest.drop fd.length)
          else some ([], cs2)
        | [] => some ([], cs2)
      match fracPart with
      | none => none
      | some (fracDigits, cs3) =>
        let expPart : Option (Int × List Char) :=
          match cs3 with
          | c :: rest =>
            if c = 'e' ∨ c = 'E' then
              let esigned : Bool × List Char :=
                match rest with
                | c2 :: rest2 =>
                  if c2 = '-' then (true, rest2)
                  else if c2 = '+' then (false, rest2)
                  else (false, rest)
                | [] => (false, rest)
              let ed := esigned.2.takeWhile Char.isDigit
              if ed = [] then none
              else
                let ev : Int := (digitsToNat ed : Int)
                some (if esigned.1 then -ev else ev, esigned.2.drop ed.length)
            else some (0, cs3)
          | [] => some (0, cs3)
        match expPart with
        | none => none
        | some (ex, cs4) =>
          let mantissa : Int := (digitsToNat (intDigits ++ fracDigits) : Int)
          let mantissa := if neg then -mantissa else mantissa
          let scale : Int := ex - (fracDigits.length : Int)
          some ((mantissa, scale), cs4)

/-- Does `cs` start with `pre` (used for the `true` / `false` / `null` tokens)? -/
def startsWith (pre cs : List Char) : Bool :=
  cs.take pre.length = pre

mutual

/-- Parse one JSON value; `fuel` bounds structural nesting and member counts. -/
def parse_value (fuel : Nat) (cs : List Char) : Option (Json × List Char) :=
  match fuel with
  | 0 => none
  | fuel + 1 =>
    match skipWs cs with
    | [] => none
    | c :: rest =>
      if c = '{' then
        match skipWs rest with
        | '}' :: rest2 => some (.obj [], rest2)
        | _ => parse_members fuel (skipWs rest) []
      else if c = '[' then
        match skipWs rest with
        | ']' :: rest2 => some (.arr [], rest2)
        | _ => parse_elements fuel (skipWs rest) []
      else if c = '"' then
        match parse_string_body [] rest with
        | some (s, rest2) => some (.str s, rest2)
        | none => none
      else if c = 't' then
        if startsWith ['r', 'u', 'e'] rest then some (.bool true, rest.drop 3) else none
      else if c = 'f' then
        if startsWith ['a', 'l', 's', 'e'] rest then some (.bool false, rest.drop 4) else none
      else if c = 'n' then
        if startsWith ['u', 'l', 'l'] rest then some (.null, rest.drop 3) else none
      else if c = '-' ∨ c.isDigit then
        match parse_number (c :: rest) with
        | some ((m, e), rest2) => some (.num m e, rest2)
        | none => none
      else none

/-- Parse the members of an object, positioned at a key (not at `}`). -/
def parse_members (fuel : Nat) (cs : List Char) (acc : List (String × Json)) :
    Option (Json × List Char) :=
  match fuel with
  | 0 => none
  | fuel + 1 =>
    match cs with
    | '"' :: rest =>
      match parse_string_body [] rest with
      | none => none
      | some (k, rest2) =>
        match skipWs rest2 with
        | ':' :: rest3 =>
          match parse_value fuel rest3 with
          | none => none
          | some (v, rest4) =>
            match skipWs rest4 with
            | ',' :: rest5 => parse_members fuel (skipWs rest5) ((k, v) :: acc)
            | '}' :: rest5 => some (.obj (((k, v) :: acc).reverse), rest5)
            | _ => none
        | _ => none
    | _ => none

/-- Parse the elements of an array, positioned at a value (not at `]`). -/
def parse_elements (fuel : Nat) (cs : List Char) (acc : List Json) :
    Option (Json × List Char) :=
  match fuel with
  | 0 => none
  | fuel + 1 =>
    match parse_value fuel cs with
    | none => none
    | some (v, rest) =>
      match skipWs rest with
      | ',' :: rest2 => parse_elements fuel rest2 (v :: acc)
      | ']' :: rest2 => some (.arr ((v :: acc).reverse), rest2)
      | _ => none

end

/-- Model of `json.loads`: parse one document and require only whitespace after. -/
def loads (cs : List Char) : Option Json :=
  match parse_value (cs.length + 1) cs with
  | some (v, rest) => if skipWs rest = [] then some v else none
  | none => none

end PyJson

/-! ## Truncated-JSON repair and the three-stage response parse

`DealAnalysisService._repair_truncated_json` and `_parse_response`,
translated to character lists.  `str.rstrip()` is modeled with
`Char.isWhitespace`; `str.rstrip(',')` strips every trailing comma;
`str.rfind(c, 0, stop)` is the last index of `c` before `stop`. -/

namespace DealService

/-- Python `s.rstrip()`. -/
def rstrip (cs : List Char) : List Char :=
  (cs.reverse.dropWhile Char.isWhitespace).reverse

/-- Python `s.rstrip(",")`. -/
def rstripComma (cs : List Char) : List Char :=
  (cs.reverse.dropWhile (· = ',')).reverse

/-- Python `s.endswith(c)` for a one-character suffix. -/
def endsWithChar (cs : List Char) (c : Char) : Bool :=
  match cs.getLast? with
  | some c0 => c0 = c
  | none => false

/-- The last index at which `c` occurs in `cs`, if any. -/
def rfindLast (c : Char) : List Char → Option Nat
  | [] => none
  | x :: rest =>
    match rfindLast c rest with
    | some i => some (i + 1)
    | none => if x = c then some 0 else none

/-- Python `s.rfind(c, 0, stop)`: last index of `c` in `s[0:stop]`. -/
def rfindBefore (cs : List Char) (c : Char) (stop : Nat) : Option Nat :=
  rfindLast c (cs.take stop)

/-- The bracket/brace scan state of the repair routine.  The Python code keeps
the stack in a list with the top at the end; here the top is the head, and the
`reversed(stack)` closing loop below therefore walks the list front to back.
The scan's `last_valid_pos` variable never influences the output and is
omitted. -/
structure ScanState where
  stack : List Char
  inString : Bool
  escapeNext : Bool

def scanStep (st : ScanState) (c : Char) : ScanState :=
  if st.escapeNext then { st with escapeNext := false }
  else if c = '\\' then { st with escapeNext := true }
  else if c = '"' then { st with inString := ¬ st.inString }
  else if st.inString then st
  else if c = '{' ∨ c = '[' then { st with stack := c :: st.stack }
  else if c = '}' then
    match st.stack with
    | '{' :: rest => { st with stack := rest }
    | _ => st
  else if c = ']' then
    match st.stack with
    | '[' :: rest => { st with stack := rest }
    | _ => st
  else st

def scan (cs : List Char) : ScanState :=
  cs.foldl scanStep ⟨[], false, false⟩

/-- One iteration of the closing loop `for opener in reversed(stack)`. -/
def closeOne (cs : List Char) (opener : Char) : List Char :=
  if opener = '{' then
    let t1 := rstrip cs
    let t2 := if endsWithChar t1 ',' then t1.dropLast else t1
    let t3 :=
      if endsWithChar t2 ':' then
        match rfindBefore t2 '"' (t2.length - 1) with
        | some lastQuote =>
          if 0 < lastQuote then
            match rfindBefore t2 '"' lastQuote with
            | some secondLastQuote => rstripComma (rstrip (t2.take secondLastQuote))
            | none => t2
          else t2
        | none => t2
      else t2
    t3 ++ ['}']
  else
    let t1 := rstrip cs
    let t2 := if endsWithChar t1 ',' then t1.dropLast else t1
    t2 ++ [']']

/-- `DealAnalysisService._repair_truncated_json`. -/
def repair_truncated_json (jsonText : List Char) : List Char :=
  let text := rstrip jsonText
  let st := scan text
  if st.stack = [] then text
  else
    let withQuote := if st.inString then text ++ ['"'] else text
    st.stack.foldl closeOne withQuote

/-- Step (b) of `_parse_response`: parse the substring from the first `{` to
the last `}`. -/
def substringStage (response : List Char) : Option Json :=
  match response.findIdx? (· = '{'), rfindLast '}' response with
  | some s, some e =>
    if s ≤ e then PyJson.loads ((response.drop s).take (e + 1 - s)) else none
  | _, _ => none

/-- Step (c) of `_parse_response`: structural repair of the suffix starting at
the first `{`; an empty repaired string (Python falsiness) is not parsed. -/
def repairStage (response : List Char) : Option Json :=
  match response.findIdx? (· = '{') with
  | none => none
  | some s =>
    let repaired := repair_truncated_json (response.drop s)
    if repaired = [] then none else PyJson.loads repaired

/-- The three parse attempts of `_parse_response`, first success wins;
`none` is the "total parse failure" that the caller replaces with the
default analysis data. -/
def parse_pipeline (response : List Char) : Option Json :=
  match PyJson.loads response with
  | some v => some v
  | none =>
    match substringStage response with
    | some v => some v
    | none => repairStage response

end DealService

/-! ## Schemas (`app/schemas/deal_analysis.py`)

Pydantic models are embedded as structures plus explicit validation functions
from parsed JSON dicts; pydantic *validates* its `Field` constraints (it
raises `ValidationError` on a violation — it does not clamp).  Lax-mode
coercions that matter here: an `int` field accepts an integral JSON number or
a numeric string, a `str` field accepts only a string, a `List[...]` field
accepts only a list.  Absent fields take their declared defaults; extra keys
are ignored, except on `DealAnalysis` whose `Config.extra = "allow"` keeps
them. -/

/-- The Python exceptions that can cross the boundaries modeled here. -/
inductive PyError where
  | validation (field : String)
  | typeErr
  | attributeErr
deriving DecidableEq, Repr

structure RevenueCustomer where
  name : String
  industry : String
  revenue_contribution : String
  description : String
deriving DecidableEq, Repr

/-- Modelled from the spec: the `PricingLineItem` class is imported by
`deal_analysis_service.py` from `app.schemas.deal_analysis` but is absent from
the sources.  Per the spec (§3 data model and §4.2 step 5) a line item carries
service/category/quantity/unit-price fields — named here as in the service's
prompt contract and in the service code's `total_price_eur` accesses — and its
`total_price` is *derived* as `quantity × unit_price` rather than trusted from
generated text.  Defaults for absent fields (empty strings, quantity 1,
unit price 0) are a modeling choice where the spec is silent. -/
structure PricingLineItem where
  service_name : String
  description : String
  category : String
  quantity : Int
  unit_price_eur : Int
  total_price_eur : Int
deriving DecidableEq, Repr

/-- Modelled from the spec: the `PricingSummary` class is likewise imported
but absent from the sources.  Per the spec it is a list of line items plus a
`total_cost` (and the prompt contract's `pricing_notes`). -/
structure PricingSummary where
  recommended_services : List PricingLineItem
  total_cost_eur : Int
  pricing_notes : List String
deriving DecidableEq, Repr

/-- An element of a heterogeneous Python list built by `analyze_deal`'s
conversion passes: a raw JSON value, or an already-validated model instance. -/
inductive PyAtom where
  | j (v : Json)
  | cust (c : RevenueCustomer)
  | item (li : PricingLineItem)

/-- A Python value held in the `analysis_data` dict: a raw JSON value, a
validated model instance, or a list produced by a conversion pass. -/
inductive PyVal where
  | j (v : Json)
  | cust (c : RevenueCustomer)
  | pricing (p : PricingSummary)
  | listA (elems : List PyAtom)

namespace PyDict

/-- Lookup in a duplicate-free assoc list modeling a Python dict. -/
def getVal (m : List (String × PyVal)) (k : String) : Option PyVal :=
  match m with
  | [] => none
  | (k0, v0) :: rest => if k0 = k then some v0 else getVal rest k

/-- `d[k] = v`: replace in place when the key exists, else append. -/
def setVal (m : List (String × PyVal)) (k : String) (v : PyVal) :
    List (String × PyVal) :=
  if (getVal m k).isSome then
    m.map fun kv => if kv.1 = k then (k, v) else kv
  else m ++ [(k, v)]

end PyDict

/-- Elementwise validation of a Python list: the first exception aborts the
comprehension (structural equivalent of `List.mapM` over `Except`). -/
def exceptMapList {α β : Type} (f : α → Except PyError β) : List α → Except PyError (List β)
  | [] => .ok []
  | a :: l => do
    let b ← f a
    let bs ← exceptMapList f l
    .ok (b :: bs)

/-- Validate a string field of a pydantic model: absent takes the default,
a JSON string passes, anything else is a `ValidationError`. -/
def strFieldJ (fieldName : String) (v : Option Json) (dflt : String) :
    Except PyError String :=
  match v with
  | none => .ok dflt
  | some (.str s) => .ok s
  | some _ => .error (.validation fieldName)

/-- Validate an `int` field from a JSON value: an integral number or a numeric
string coerces, anything else is a `ValidationError`. -/
def intFieldJ (fieldName : String) (v : Option Json) (dflt : Int) :
    Except PyError Int :=
  match v with
  | none => .ok dflt
  | some (.num m e) =>
    match Json.numAsInt m e with
    | some n => .ok n
    | none => .error (.validation fieldName)
  | some (.str s) =>
    match s.toInt? with
    | some n => .ok n
    | none => .error (.validation fieldName)
  | some _ => .error (.validation fieldName)

/-- Validate a `List[str]` field. -/
def strListFieldJ (fieldName : String) (v : Option Json) :
    Except PyError (List String) :=
  match v with
  | none => .ok []
  | some (.arr l) =>
    exceptMapList (fun e =>
      match e with
      | .str s => Except.ok s
      | _ => Except.error (PyError.validation fieldName)) l
  | some _ => .error (.validation fieldName)

def RevenueCustomer.validate (m : List (String × Json)) :
    Except PyError RevenueCustomer := do
  let name ← strFieldJ "name" (Json.getKey m "name") ""
  let industry ← strFieldJ "industry" (Json.getKey m "industry") ""
  let contribution ← strFieldJ "revenue_contribution" (Json.getKey m "revenue_contribution") ""
  let description ← strFieldJ "description" (Json.getKey m "description") ""
  return ⟨name, industry, contribution, description⟩

/-- Modelled from the spec: `PricingLineItem` validation; `total_price_eur` is
derived as `quantity × unit_price_eur`, never read from the input. -/
def PricingLineItem.validate (m : List (String × Json)) :
    Except PyError PricingLineItem := do
  let serviceName ← strFieldJ "service_name" (Json.getKey m "service_name") ""
  let description ← strFieldJ "description" (Json.getKey m "description") ""
  let category ← strFieldJ "category" (Json.getKey m "category") ""
  let quantity ← intFieldJ "quantity" (Json.getKey m "quantity") 1
  let unitPrice ← intFieldJ "unit_price_eur" (Json.getKey m "unit_price_eur") 0
  return ⟨serviceName, description, category, quantity, unitPrice, quantity * unitPrice⟩

/-- Modelled from the spec: `PricingSummary` validation.  The services list
accepts already-validated line items or dicts (re-validated). -/
def PricingSummary.validate (m : List (String × PyVal)) :
    Except PyError PricingSummary := do
  let services ←
    match PyDict.getVal m "recommended_services" with
    | none => Except.ok []
    | some (.listA l) =>
      exceptMapList (fun a =>
        match a with
        | .item li => Except.ok li
        | .j (.obj im) => PricingLineItem.validate im
        | _ => Except.error (PyError.validation "recommended_services")) l
    | some (.j (.arr l)) =>
      exceptMapList (fun e =>
        match e with
        | .obj im => PricingLineItem.validate im
        | _ => Except.error (PyError.validation "recommended_services")) l
    | some _ => Except.error (PyError.validation "recommended_services")
  let totalCost ←
    match PyDict.getVal m "total_cost_eur" with
    | none => Except.ok 0
    | some (.j v) => intFieldJ "total_cost_eur" (some v) 0
    | some _ => Except.error (PyError.validation "total_cost_eur")
  let notes ←
    match PyDict.getVal m "pricing_notes" with
    | none => Except.ok []
    | some (.j v) => strListFieldJ "pricing_notes" (some v)
    | some _ => Except.error (PyError.validation "pricing_notes")
  return ⟨services, totalCost, notes⟩

/-- `DealAnalysis` (`app/schemas/deal_analysis.py`).  `extras` holds the
extra keys kept by `Config.extra = "allow"` (notably `pricing_summary`,
which is *not* a declared field of the schema). -/
structure DealAnalysis where
  company_name : String
  country : String
  region : String
  summary : String
  product_description : String
  vertical : String
  business_model : String
  motion : String
  raise_stage : String
  company_size : String
  revenue_top_5_customers : List RevenueCustomer
  scoring_rubric : List (String × Json)
  fit_score : Int
  fit_assessment : String
  icp_mapping : String
  likely_icp_canada : String
  support_required : String
  support_recommendations : List String
  key_insights : List String
  questions_to_ask : List String
  confidence_level : String
  notes : List String
  extras : List (String × PyVal)

/-- The declared field names of `DealAnalysis`. -/
def DealAnalysis.fieldNames : List String :=
  ["company_name", "country", "region", "summary", "product_description",
   "vertical", "business_model", "motion", "raise_stage", "company_size",
   "revenue_top_5_customers", "scoring_rubric", "fit_score", "fit_assessment",
   "icp_mapping", "likely_icp_canada", "support_required",
   "support_recommendations", "key_insights", "questions_to_ask",
   "confidence_level", "notes"]

/-- A `str` field of `DealAnalysis`, read from the analysis dict. -/
def strFieldP (fieldName : String) (v : Option PyVal) (dflt : String) :
    Except PyError String :=
  match v with
  | none => .ok dflt
  | some (.j jv) => strFieldJ fieldName (some jv) dflt
  | some _ => .error (.validation fieldName)

/-- A `List[str]` field of `DealAnalysis`. -/
def strListFieldP (fieldName : String) (v : Option PyVal) :
    Except PyError (List String) :=
  match v with
  | none => .ok []
  | some (.j jv) => strListFieldJ fieldName (some jv)
  | some _ => .error (.validation fieldName)

/-- `DealAnalysis(**analysis_data)`: pydantic validation of the analysis dict.
`fit_score` is validated against `ge=1, le=10` — out-of-range or non-integer
values raise; nothing is clamped. -/
def DealAnalysis.validate (m : List (String × PyVal)) :
    Except PyError DealAnalysis := do
  let companyName ← strFieldP "company_name" (PyDict.getVal m "company_name") "Unknown"
  let country ← strFieldP "country" (PyDict.getVal m "country") "Unknown"
  let region ← strFieldP "region" (PyDict.getVal m "region") "Unknown"
  let summary ← strFieldP "summary" (PyDict.getVal m "summary") ""
  let productDescription ← strFieldP "product_description" (PyDict.getVal m "product_description") "Unknown"
  let vertical ← strFieldP "vertical" (PyDict.getVal m "vertical") "Unknown"
  let businessModel ← strFieldP "business_model" (PyDict.getVal m "business_model") "Unknown"
  let motion ← strFieldP "motion" (PyDict.getVal m "motion") "Unknown"
  let raiseStage ← strFieldP "raise_stage" (PyDict.getVal m "raise_stage") "Unknown"
  let companySize ← strFieldP "company_size" (PyDict.getVal m "company_size") "Unknown"
  let customers ←
    match PyDict.getVal m "revenue_top_5_customers" with
    | none => Except.ok []
    | some (.listA l) =>
      exceptMapList (fun a =>
        match a with
        | .cust c => Except.ok c
        | .j (.obj cm) => RevenueCustomer.validate cm
        | _ => Except.error (PyError.validation "revenue_top_5_customers")) l
    | some (.j (.arr l)) =>
      exceptMapList (fun e =>
        match e with
        | .obj cm => RevenueCustomer.validate cm
        | _ => Except.error (PyError.validation "revenue_top_5_customers")) l
    | some _ => Except.error (PyError.validation "revenue_top_5_customers")
  let scoringRubric ←
    match PyDict.getVal m "scoring_rubric" with
    | none => Except.ok ([] : List (String × Json))
    | some (.j (.obj sm)) => Except.ok sm
    | some _ => Except.error (PyError.validation "scoring_rubric")
  let fitScoreRaw ←
    match PyDict.getVal m "fit_score" with
    | none => Except.ok (5 : Int)
    | some (.j jv) => intFieldJ "fit_score" (some jv) 5
    | some _ => Except.error (PyError.validation "fit_score")
  let fitScore ←
    if 1 ≤ fitScoreRaw ∧ fitScoreRaw ≤ 10 then Except.ok fitScoreRaw
    else Except.error (PyError.validation "fit_score")
  let fitAssessment ← strFieldP "fit_assessment" (PyDict.getVal m "fit_assessment") ""
  let icpMapping ← strFieldP "icp_mapping" (PyDict.getVal m "icp_mapping") "Unknown"
  let likelyIcp ← strFieldP "likely_icp_canada" (PyDict.getVal m "likely_icp_canada") "Unknown"
  let supportRequired ← strFieldP "support_required" (PyDict.getVal m "support_required") ""
  let supportRecs ← strListFieldP "support_recommendations" (PyDict.getVal m "support_recommendations")
  let keyInsights ← strListFieldP "key_insights" (PyDict.getVal m "key_insights")
  let questions ← strListFieldP "questions_to_ask" (PyDict.getVal m "questions_to_ask")
  let confidence ← strFieldP "confidence_level" (PyDict.getVal m "confidence_level") "Medium"
  let notes ← strListFieldP "notes" (PyDict.getVal m "notes")
  let extras := m.filter fun kv => ! DealAnalysis.fieldNames.contains kv.1
  return ⟨companyName, country, region, summary, productDescription, vertical,
    businessModel, motion, raiseStage, companySize, customers, scoringRubric,
    fitScore, fitAssessment, icpMapping, likelyIcp, supportRequired,
    supportRecs, keyInsights, questions, confidence, notes, extras⟩

/-- `DealAnalysis(**d)` on a plain JSON dict (the cache-read path). -/
def DealAnalysis.validateJson (m : List (String × Json)) :
    Except PyError DealAnalysis :=
  DealAnalysis.validate (m.map fun kv => (kv.1, PyVal.j kv.2))

/-! ## `DealAnalysisService.analyze_deal` and its helpers

The generation collaborator (`bedrock_service.invoke_claude`) is modeled by
the two response arguments: `Except.error e` is a raised network/timeout
exception with message `e`, `Except.ok r` is the raw text returned.  Prompt
assembly (`_format_deal_data`, template substitution) only shapes the text
sent to that collaborator and therefore does not appear in the output
model. -/

namespace DealService

/-- The default scoring rubric dict (five criteria at 5). -/
def defaultRubric : List (String × Json) :=
  [("product_market_fit", .num 5 0), ("canada_market_readiness", .num 5 0),
   ("gtm_clarity", .num 5 0), ("team_capability", .num 5 0),
   ("revenue_potential", .num 5 0)]

/-- `DealAnalysisService._get_default_analysis_data(error_message)`. -/
def get_default_analysis_data (errorMessage : String) : List (String × Json) :=
  [("company_name", .str "Unknown"),
   ("country", .str "Unknown"),
   ("region", .str "Unknown"),
   ("summary", .str "Unable to determine from available data"),
   ("product_description", .str "Unable to determine from available data"),
   ("vertical", .str "Unknown"),
   ("business_model", .str "Unknown"),
   ("motion", .str "Unknown"),
   ("raise_stage", .str "Unknown"),
   ("company_size", .str "Unknown"),
   ("revenue_top_5_customers", .arr []),
   ("scoring_rubric", .obj defaultRubric),
   ("fit_score", .num 5 0),
   ("fit_assessment", .str ("Analysis unavailable: " ++ errorMessage)),
   ("icp_mapping", .str "Unknown"),
   ("likely_icp_canada", .str "Unknown"),
   ("support_required", .str "Manual review required"),
   ("support_recommendations", .arr [.str "Manual assessment needed due to analysis failure"]),
   ("pricing_summary", .null),
   ("key_insights", .arr [.str "Analysis could not be completed - manual review required"]),
   ("questions_to_ask", .arr
     [.str "What is your core product and who is your primary customer?",
      .str "Have you explored the Canadian market before?",
      .str "What is your current GTM motion?",
      .str "What stage of funding are you at?",
      .str "What would success in Canada look like for you?"]),
   ("confidence_level", .str "Low"),
   ("notes", .arr [.str ("Automated analysis failed: " ++ errorMessage)])]

/-- `DealAnalysisService._get_default_scoring_data()`. -/
def get_default_scoring_data : List (String × Json) :=
  [("scoring_rubric", .obj defaultRubric),
   ("fit_score", .num 5 0),
   ("fit_assessment", .str "Scoring unavailable - manual assessment recommended")]

/-- `DealAnalysisService._parse_response`: the three parse attempts, with the
default analysis data substituted on total failure. -/
def parse_response (response : List Char) : Json :=
  match parse_pipeline response with
  | some v => v
  | none => .obj (get_default_analysis_data "Failed to parse LLM response")

/-- `DealAnalysisService._run_main_analysis`: a raised generation exception is
caught and replaced by the default analysis data. -/
def run_main_analysis (mainResp : Except String String) : Json :=
  match mainResp with
  | .error e => .obj (get_default_analysis_data e)
  | .ok r => parse_response r.toList

/-- Python `key in value` for a JSON value: key lookup on a dict, element
equality on a list, substring containment on a string; `TypeError` otherwise. -/
def pyContains (container : Json) (key : String) : Except PyError Bool :=
  match container with
  | .obj m => .ok (Json.hasKey m key)
  | .arr l => .ok (l.any fun e => match e with | .str s => s = key | _ => false)
  | .str s => .ok (hasSub s.toList key.toList)
  | _ => .error .typeErr
where
  hasSub : List Char → List Char → Bool
    | [], needle => needle = []
    | h :: t, needle => PyJson.startsWith needle (h :: t) || hasSub t needle

/-- `DealAnalysisService._run_scoring_rubric`: everything (the generation
call, the parse, and the key-presence checks) runs inside one
`except Exception` that substitutes the default scoring data.  Note that a
parse failure substitutes `_get_default_analysis_data`, which *does* contain
`scoring_rubric` and `fit_score` keys and therefore passes the check. -/
def run_scoring_rubric (scoringResp : Except String String) : Json :=
  match scoringResp with
  | .error _ => .obj get_default_scoring_data
  | .ok r =>
    let sd := parse_response r.toList
    match pyContains sd "scoring_rubric", pyContains sd "fit_score" with
    | .ok b1, .ok b2 => if b1 ∧ b2 then sd else .obj get_default_scoring_data
    | _, _ => .obj get_default_scoring_data

/-- Python iteration over a JSON value, as used by the list comprehensions in
`analyze_deal`: a list yields its elements, a string its one-character
substrings, a dict its keys; numbers/booleans/null raise `TypeError`. -/
def pyIterate (v : Json) : Except PyError (List Json) :=
  match v with
  | .arr l => .ok l
  | .str s => .ok (s.toList.map fun c => .str (String.mk [c]))
  | .obj m => .ok (m.map fun kv => .str kv.1)
  | _ => .error .typeErr

/-- The `revenue_top_5_customers` conversion pass of `analyze_deal`: each dict
element becomes a `RevenueCustomer` (pydantic validation errors propagate —
this comprehension is outside any `try`), non-dict elements are kept as-is. -/
def convert_revenue (m : List (String × PyVal)) :
    Except PyError (List (String × PyVal)) :=
  match PyDict.getVal m "revenue_top_5_customers" with
  | none => .ok m
  | some (.j v) => do
    let elems ← pyIterate v
    let converted ← exceptMapList (fun e =>
      match e with
      | .obj cm => (RevenueCustomer.validate cm).map PyAtom.cust
      | other => Except.ok (PyAtom.j other)) elems
    .ok (PyDict.setVal m "revenue_top_5_customers" (.listA converted))
  | some _ => .error .typeErr

/-- The summation `sum(item.total_price_eur if isinstance(item, PricingLineItem)
else item.get("total_price_eur", 0) for item in ...)` over the converted
services list.  After the conversion pass every dict has become a line item,
so the `.get` branch is reached only by non-dict leftovers, where Python
raises (`AttributeError` — no `.get`, or `TypeError` on a mixed-type sum). -/
def sumTotalsFrom (acc : Int) : List PyAtom → Except PyError Int
  | [] => .ok acc
  | a :: l =>
    match a with
    | .item li => sumTotalsFrom (acc + li.total_price_eur) l
    | .j (.obj im) =>
      match Json.getD im "total_price_eur" (.num 0 0) with
      | .num mm ee =>
        match Json.numAsInt mm ee with
        | some n => sumTotalsFrom (acc + n) l
        | none => Except.error PyError.typeErr
      | _ => Except.error PyError.typeErr
    | _ => Except.error PyError.attributeErr

def sumTotals (l : List PyAtom) : Except PyError Int :=
  sumTotalsFrom 0 l

/-- The `pricing_summary` conversion pass of `analyze_deal`: when the parsed
value is a dict, its `recommended_services` dicts become `PricingLineItem`s,
`total_cost_eur` is overwritten with the recomputed sum, and the whole dict
becomes a `PricingSummary`; validation errors propagate (no `try` here).
A non-dict `pricing_summary` fails the `isinstance` check and is skipped. -/
def convert_pricing (m : List (String × PyVal)) :
    Except PyError (List (String × PyVal)) :=
  match PyDict.getVal m "pricing_summary" with
  | some (.j (.obj pm)) => do
    let pmv : List (String × PyVal) := pm.map fun kv => (kv.1, PyVal.j kv.2)
    let pmv2 ←
      match Json.getKey pm "recommended_services" with
      | none => Except.ok pmv
      | some rsv => do
        let elems ← pyIterate rsv
        let converted ← exceptMapList (fun e =>
          match e with
          | .obj im => (PricingLineItem.validate im).map PyAtom.item
          | other => Except.ok (PyAtom.j other)) elems
        Except.ok (PyDict.setVal pmv "recommended_services" (.listA converted))
    let services :=
      match PyDict.getVal pmv2 "recommended_services" with
      | some (.listA l) => l
      | _ => []
    let total ← sumTotals services
    let pmv3 := PyDict.setVal pmv2 "total_cost_eur" (.j (.int total))
    let ps ← PricingSummary.validate pmv3
    .ok (PyDict.setVal m "pricing_summary" (.pricing ps))
  | _ => .ok m

/-- `d.get(k, default)` where `d` must be a dict (`AttributeError` otherwise,
as raised by `scoring_data.get` when the scoring value is not a dict). -/
def dictGet (v : Json) (k : String) (dflt : Json) : Except PyError Json :=
  match v with
  | .obj m => .ok (Json.getD m k dflt)
  | _ => .error .attributeErr

/-- `DealAnalysisService.analyze_deal`.

The deal data and attachment text shape only the prompts; the collaborator's
behavior is the two response arguments.  The conversion passes and the final
`DealAnalysis(**analysis_data)` run outside any `try`, so their exceptions
reach the caller.  A successfully parsed main response that is not a JSON
object raises `TypeError` (at the `in` membership test for numbers, booleans
and null, or at the `analysis_data[...] = ...` item assignment for strings
and lists); both cases are folded into the `typeErr` branch here. -/
def analyze_deal (_dealData : List (String × Json)) (_attachmentText : Option String)
    (mainResp scoringResp : Except String String) : Except PyError DealAnalysis := do
  let analysisJson := run_main_analysis mainResp
  let m ←
    match analysisJson with
    | .obj mm => Except.ok (mm.map fun kv => (kv.1, PyVal.j kv.2))
    | _ => Except.error PyError.typeErr
  let m ← convert_revenue m
  let m ← convert_pricing m
  let scoring := run_scoring_rubric scoringResp
  let rubric ← dictGet scoring "scoring_rubric" (.obj defaultRubric)
  let fitScore ← dictGet scoring "fit_score" (.int 5)
  let fitAssessment ← dictGet scoring "fit_assessment" (.str "")
  let m := PyDict.setVal m "scoring_rubric" (.j rubric)
  let m := PyDict.setVal m "fit_score" (.j fitScore)
  let m := PyDict.setVal m "fit_assessment" (.j fitAssessment)
  DealAnalysis.validate m

end DealService

/-! ## `ZohoTokenManager` (`app/services/zoho/token_manager.py`)

The manager's shared state is the token / expiry / api-domain triple; time is
integer seconds (`datetime.utcnow()` = `now`, `timedelta(seconds=n)` = `n`).
The wire exchange is modeled by a response argument: `Except.error e` is a
raised `httpx.RequestError`, `Except.ok r` a received response whose JSON
body is already parsed (an undecodable 200 body is not modeled; none of the
claims concerns it).  Stored values keep their JSON shape, since Python
assigns whatever the body held. -/

/-- Python truthiness of a JSON value. -/
def Json.truthy : Json → Bool
  | .null => false
  | .bool b => b
  | .num m _ => m ≠ 0
  | .str s => s ≠ ""
  | .arr l => ¬ l.isEmpty
  | .obj m => ¬ m.isEmpty

namespace TokenManager

structure Settings where
  ZOHO_TOKEN_REFRESH_BUFFER : Int
  ZOHO_API_BASE_URL : String

structure TMState where
  access_token : Option Json
  token_expiry : Option Int
  api_domain : Option Json

/-- A token-endpoint response: HTTP status and the parsed JSON body. -/
structure TokenResponse where
  status_code : Nat
  body : List (String × Json)

inductive TokenFailure where
  | zohoTokenExc (msg : String)
  | typeErr
deriving DecidableEq, Repr

/-- `ZohoTokenManager.refresh_access_token` (the body of the critical
section).  Checks run in source order: non-200 status, then an `error` key,
both raising `ZohoTokenException` before any state is touched; a network
error raises likewise.  On the success path the token and api-domain are
assigned, then the expiry is computed from `expires_in` (default 3600) —
a non-numeric `expires_in` raises out of `timedelta` *after* the first two
assignments, which the model reproduces. -/
def refresh_access_token (st : TMState) (s : Settings) (now : Int)
    (resp : Except String TokenResponse) :
    Except TokenFailure Json × TMState :=
  match resp with
  | .error e => (.error (.zohoTokenExc ("Network error: " ++ e)), st)
  | .ok r =>
    if r.status_code ≠ 200 then
      (.error (.zohoTokenExc ("Failed to refresh token: " ++ toString r.status_code)), st)
    else if Json.hasKey r.body "error" then
      (.error (.zohoTokenExc "Zoho error"), st)
    else
      match Json.getKey r.body "access_token" with
      | none => (.error .typeErr, st)
      | some tok =>
        let dom := Json.getD r.body "api_domain" (.str s.ZOHO_API_BASE_URL)
        let st1 : TMState := { st with access_token := some tok, api_domain := some dom }
        match Json.getD r.body "expires_in" (.int 3600) with
        | .num mm ee =>
          match Json.numAsInt mm ee with
          | some n => (.ok tok, { st1 with token_expiry := some (now + n) })
          | none => (.error .typeErr, st1)
        | _ => (.error .typeErr, st1)

/-- `ZohoTokenManager.get_access_token`: return the cached token when it is
truthy, an expiry exists, and `now < expiry - buffer`; otherwise refresh.
The third component records whether a refresh exchange was performed. -/
def get_access_token (st : TMState) (s : Settings) (now : Int)
    (resp : Except String TokenResponse) :
    Except TokenFailure Json × TMState × Bool :=
  let refreshed :=
    let r := refresh_access_token st s now resp
    (r.1, r.2, true)
  match st.access_token, st.token_expiry with
  | some tok, some exp =>
    if tok.truthy then
      if now < exp - s.ZOHO_TOKEN_REFRESH_BUFFER then (.ok tok, st, false)
      else refreshed
    else refreshed
  | _, _ => refreshed

end TokenManager

/-! ## `ZohoCRMService._make_request` (`app/services/zoho/crm_service.py`)

The two possible wire requests and the forced token refresh are modeled by
response arguments; the trace records how many refreshes were forced and how
many CRM requests were sent.  `Except.error` on a request is a raised
`httpx.RequestError` (caught and re-raised as a network `ZohoAPIException`);
`Except.error` on the refresh is a `ZohoTokenException`, which the code does
*not* catch. -/

namespace CrmService

structure HttpResp where
  status_code : Nat
  body : Json

inductive CrmFailure where
  | rateLimitExc
  | zohoAPIExc (status : Nat)
  | zohoAPIExcNet
  | tokenExc
deriving DecidableEq, Repr

structure CrmTrace where
  refresh_calls : Nat
  requests_sent : Nat
deriving DecidableEq, Repr

def make_request (first : Except String HttpResp)
    (refreshResult : Except String Unit)
    (second : Except String HttpResp) :
    Except CrmFailure Json × CrmTrace :=
  match first with
  | .error _ => (.error .zohoAPIExcNet, ⟨0, 1⟩)
  | .ok r =>
    if r.status_code = 429 then (.error .rateLimitExc, ⟨0, 1⟩)
    else if r.status_code = 401 then
      match refreshResult with
      | .error _ => (.error .tokenExc, ⟨1, 1⟩)
      | .ok _ =>
        match second with
        | .error _ => (.error .zohoAPIExcNet, ⟨1, 2⟩)
        | .ok r2 =>
          if 400 ≤ r2.status_code then (.error (.zohoAPIExc r2.status_code), ⟨1, 2⟩)
          else (.ok r2.body, ⟨1, 2⟩)
    else if 400 ≤ r.status_code then (.error (.zohoAPIExc r.status_code), ⟨0, 1⟩)
    else (.ok r.body, ⟨0, 1⟩)

end CrmService

/-! ## `DealAnalysisCache` (`app/services/dynamodb/deal_cache.py`)

DynamoDB is modeled as a key-value map (an assoc list keyed by `deal_id`;
`put_item` replaces the whole item).  The `json.dumps`/`json.loads` pair
through which the analysis dict and the three artifact lists travel is
modeled at the value level (the stdlib round-trip is exact for JSON values);
ISO timestamps are integer seconds.  An `Option` artifact field models a row
written by an older schema that lacked it; `save_analysis` always writes all
three (`json.dumps(x or [])`, a non-empty and hence truthy string). -/

def RevenueCustomer.dumpFields (c : RevenueCustomer) : List (String × Json) :=
  [("name", .str c.name), ("industry", .str c.industry),
   ("revenue_contribution", .str c.revenue_contribution),
   ("description", .str c.description)]

def PricingLineItem.dumpFields (li : PricingLineItem) : List (String × Json) :=
  [("service_name", .str li.service_name), ("description", .str li.description),
   ("category", .str li.category), ("quantity", .int li.quantity),
   ("unit_price_eur", .int li.unit_price_eur),
   ("total_price_eur", .int li.total_price_eur)]

def PricingSummary.dumpFields (p : PricingSummary) : List (String × Json) :=
  [("recommended_services", .arr (p.recommended_services.map fun li => .obj li.dumpFields)),
   ("total_cost_eur", .int p.total_cost_eur),
   ("pricing_notes", .arr (p.pricing_notes.map Json.str))]

def PyAtom.toJson : PyAtom → Json
  | .j v => v
  | .cust c => .obj c.dumpFields
  | .item li => .obj li.dumpFields

def PyVal.toJson : PyVal → Json
  | .j v => v
  | .cust c => .obj c.dumpFields
  | .pricing p => .obj p.dumpFields
  | .listA l => .arr (l.map PyAtom.toJson)

/-- `analysis.model_dump()` (serialized with `json.dumps` on the write path):
declared fields in declaration order, then the extra keys. -/
def DealAnalysis.dump (a : DealAnalysis) : List (String × Json) :=
  [("company_name", .str a.company_name),
   ("country", .str a.country),
   ("region", .str a.region),
   ("summary", .str a.summary),
   ("product_description", .str a.product_description),
   ("vertical", .str a.vertical),
   ("business_model", .str a.business_model),
   ("motion", .str a.motion),
   ("raise_stage", .str a.raise_stage),
   ("company_size", .str a.company_size),
   ("revenue_top_5_customers", .arr (a.revenue_top_5_customers.map fun c => .obj c.dumpFields)),
   ("scoring_rubric", .obj a.scoring_rubric),
   ("fit_score", .int a.fit_score),
   ("fit_assessment", .str a.fit_assessment),
   ("icp_mapping", .str a.icp_mapping),
   ("likely_icp_canada", .str a.likely_icp_canada),
   ("support_required", .str a.support_required),
   ("support_recommendations", .arr (a.support_recommendations.map Json.str)),
   ("key_insights", .arr (a.key_insights.map Json.str)),
   ("questions_to_ask", .arr (a.questions_to_ask.map Json.str)),
   ("confidence_level", .str a.confidence_level),
   ("notes", .arr (a.notes.map Json.str))]
  ++ a.extras.map fun kv => (kv.1, kv.2.toJson)

namespace DealCache

/-- One row of the `tbdc_deal_analysis` table. -/
structure Item where
  analysis : List (String × Json)
  marketing_materials : Option (List Json)
  similar_customers : Option (List Json)
  meetings : Option (List Json)
  company_name : Json
  fit_score : Json
  created_at : Int
  updated_at : Int

/-- The table, keyed by `deal_id`. -/
def Table := List (String × Item)

def lookupItem (tbl : Table) (dealId : String) : Option Item :=
  match tbl with
  | [] => none
  | (k, it) :: rest => if k = dealId then some it else lookupItem rest dealId

/-- `table.put_item(Item=item)`: whole-item replacement for the key. -/
def putItem (tbl : Table) (dealId : String) (it : Item) : Table :=
  (dealId, it) :: (tbl.filter fun kv => kv.1 ≠ dealId)

/-- `DealAnalysisCache.save_analysis`. -/
def save_analysis (enabled : Bool) (tbl : Table) (dealId : String)
    (analysis : DealAnalysis)
    (marketingMaterials similarCustomers meetings : Option (List Json))
    (now : Int) : Bool × Table :=
  if ¬ enabled then (false, tbl)
  else
    let analysisDict := analysis.dump
    let item : Item :=
      { analysis := analysisDict
        marketing_materials := some (marketingMaterials.getD [])
        similar_customers := some (similarCustomers.getD [])
        meetings := some (meetings.getD [])
        company_name := Json.getD analysisDict "company_name" (.str "Unknown")
        fit_score := Json.getD analysisDict "fit_score" (.int 5)
        created_at := now
        updated_at := now }
    (true, putItem tbl dealId item)

/-- `DealAnalysisCache.get_cached_data`: a miss, or the re-validated analysis
plus the three artifact lists, each defaulting to `[]` when the stored row
lacks it; a row whose analysis no longer validates is swallowed by the
`except Exception` and reads as a miss. -/
def get_cached_data (enabled : Bool) (tbl : Table) (dealId : String) :
    Option (DealAnalysis × List Json × List Json × List Json) :=
  if ¬ enabled then none
  else
    match lookupItem tbl dealId with
    | none => none
    | some item =>
      match DealAnalysis.validateJson item.analysis with
      | .ok da =>
        some (da, item.marketing_materials.getD [],
          item.similar_customers.getD [], item.meetings.getD [])
      | .error _ => none

end DealCache

/-! ## Contention around the token refresh

`asyncio` interleaves tasks only at `await` points, so one
`get_access_token` caller decomposes into: the (synchronous) cached-token
check; the `async with self._lock` acquisition; and the locked exchange —
`refresh_access_token` performs its wire call *unconditionally* once the lock
is held, there is no second look at the cached token inside the critical
section.  Tokens are identified by the serial number of the exchange that
minted them; `fresh` abstracts `now < expiry - buffer` for the current token
at the fixed observation time (`false` for the initial expired/missing
credential, `true` for a just-minted one, whose 3600 s `expires_in` exceeds
the 300 s buffer).  A schedule is the list of task indices picked to step;
stepping a blocked or finished task is a no-op. -/

namespace Contention

/-- Program counter of one `get_access_token` caller.  `done viaRefresh ret`:
the call returned token serial `ret`, `viaRefresh` telling whether this caller
performed its own refresh exchange. -/
inductive TaskPC where
  | start
  | waitLock
  | inCritical
  | done (viaRefresh : Bool) (ret : Nat)
deriving DecidableEq, Repr

def isRefresherDone : TaskPC → Bool
  | .done true _ => true
  | _ => false

/-- The shared manager state plus every caller's program counter. -/
structure Sys (n : Nat) where
  token : Option Nat
  fresh : Bool
  lock : Option (Fin n)
  exchanges : Nat
  pcs : Fin n → TaskPC

/-- All callers at the check, the shared credential expired or missing. -/
def init (n : Nat) (staleToken : Option Nat) : Sys n :=
  { token := staleToken, fresh := false, lock := none, exchanges := 0,
    pcs := fun _ => .start }

def step {n : Nat} (s : Sys n) (i : Fin n) : Sys n :=
  match s.pcs i with
  | .start =>
    match s.token, s.fresh with
    | some t, true => { s with pcs := Function.update s.pcs i (.done false t) }
    | _, _ => { s with pcs := Function.update s.pcs i .waitLock }
  | .waitLock =>
    match s.lock with
    | none => { s with lock := some i, pcs := Function.update s.pcs i .inCritical }
    | some _ => s
  | .inCritical =>
    { s with
        token := some (s.exchanges + 1)
        fresh := true
        lock := none
        exchanges := s.exchanges + 1
        pcs := Function.update s.pcs i (.done true (s.exchanges + 1)) }
  | .done _ _ => s

def run {n : Nat} (s : Sys n) (sched : List (Fin n)) : Sys n :=
  sched.foldl step s

/-- The inductive invariant of the contention system. -/
structure Inv {n : Nat} (s : Sys n) : Prop where
  lockCrit : ∀ i, s.pcs i = .inCritical → s.lock = some i
  countEq : s.exchanges =
    (Finset.univ.filter fun i => isRefresherDone (s.pcs i) = true).card
  retPos : ∀ i r, s.pcs i = .done true r → 1 ≤ r ∧ r ≤ s.exchanges
  retDistinct : ∀ i j r, i ≠ j → s.pcs i = .done true r → s.pcs j = .done true r → False
  freshTok : s.fresh = true → ∃ v, s.token = some v ∧ 1 ≤ v ∧ v ≤ s.exchanges
  cachedRet : ∀ i r, s.pcs i = .done false r → 1 ≤ r ∧ r ≤ s.exchanges

theorem inv_init (n : Nat) (staleToken : Option Nat) : Inv (init n staleToken) := by
  refine ⟨?_, ?_, ?_, ?_, ?_, ?_⟩ <;> simp [init, isRefresherDone]

end Contention

namespace Contention

theorem filter_update_same {n : Nat} (pcs : Fin n → TaskPC) (i : Fin n) (newpc : TaskPC)
    (h : isRefresherDone newpc = isRefresherDone (pcs i)) :
    (Finset.univ.filter fun j => isRefresherDone (Function.update pcs i newpc j) = true) =
      (Finset.univ.filter fun j => isRefresherDone (pcs j) = true) := by
  ext j
  simp only [Finset.mem_filter, Finset.mem_univ, true_and, Function.update_apply]
  by_cases hj : j = i
  · subst hj; simp [h]
  · simp [hj]

theorem filter_update_fresh {n : Nat} (pcs : Fin n → TaskPC) (i : Fin n) (newpc : TaskPC)
    (hnew : isRefresherDone newpc = true) :
    (Finset.univ.filter fun j => isRefresherDone (Function.update pcs i newpc j) = true) =
      insert i (Finset.univ.filter fun j => isRefresherDone (pcs j) = true) := by
  ext j
  simp only [Finset.mem_filter, Finset.mem_univ, true_and, Function.update_apply,
    Finset.mem_insert]
  by_cases hj : j = i
  · subst hj; simp [hnew]
  · simp [hj]

/-- Invariant preservation for a step that only moves task `i` to a program
counter that is neither the critical section nor a refresher-done state. -/
theorem inv_pcUpdate {n : Nat} {s : Sys n} (h : Inv s) (i : Fin n) (newpc : TaskPC)
    (hNotCrit : newpc ≠ .inCritical)
    (hRD : isRefresherDone newpc = isRefresherDone (s.pcs i))
    (hNotTrue : ∀ r, newpc ≠ .done true r)
    (hFalseOk : ∀ r, newpc = .done false r → 1 ≤ r ∧ r ≤ s.exchanges) :
    Inv { s with pcs := Function.update s.pcs i newpc } := by
  obtain ⟨hLock, hCount, hPos, hDist, hFresh, hCached⟩ := h
  refine ⟨?_, ?_, ?_, ?_, ?_, ?_⟩
  · intro j hj
    dsimp only at hj ⊢
    rw [Function.update_apply] at hj
    split at hj
    · exact absurd hj hNotCrit
    · exact hLock j hj
  · dsimp only
    rw [filter_update_same s.pcs i newpc hRD]
    exact hCount
  · intro j r hj
    dsimp only at hj ⊢
    rw [Function.update_apply] at hj
    split at hj
    · exact absurd hj (hNotTrue r)
    · exact hPos j r hj
  · intro j k r hjk hj hk
    dsimp only at hj hk
    rw [Function.update_apply] at hj hk
    split at hj
    · exact absurd hj (hNotTrue r)
    · split at hk
      · exact absurd hk (hNotTrue r)
      · exact hDist j k r hjk hj hk
  · exact hFresh
  · intro j r hj
    dsimp only at hj ⊢
    rw [Function.update_apply] at hj
    split at hj
    · exact hFalseOk r hj
    · exact hCached j r hj

theorem inv_step {n : Nat} {s : Sys n} (h : Inv s) (i : Fin n) : Inv (step s i) := by
  have hInv := h
  obtain ⟨hLock, hCount, hPos, hDist, hFresh, hCached⟩ := h
  cases hpc : s.pcs i with
  | start =>
    cases htok : s.token with
    | none =>
      have hstep : step s i = { s with pcs := Function.update s.pcs i .waitLock } := by
        unfold step; rw [hpc, htok]
      rw [hstep]
      exact inv_pcUpdate hInv i .waitLock (by simp) (by simp [hpc, isRefresherDone])
        (by simp) (by simp)
    | some t =>
      cases hfr : s.fresh with
      | false =>
        have hstep : step s i = { s with pcs := Function.update s.pcs i .waitLock } := by
          unfold step; rw [hpc, htok, hfr]
        rw [hstep]
        exact inv_pcUpdate hInv i .waitLock (by simp) (by simp [hpc, isRefresherDone])
          (by simp) (by simp)
      | true =>
        have hstep : step s i =
            { s with pcs := Function.update s.pcs i (.done false t) } := by
          unfold step; rw [hpc, htok, hfr]
        rw [hstep]
        refine inv_pcUpdate hInv i (.done false t) (by simp)
          (by simp [hpc, isRefresherDone]) (by simp) ?_
        intro r hr
        obtain ⟨v, hv, hv1, hv2⟩ := hFresh hfr
        rw [htok] at hv
        cases hv
        cases hr
        exact ⟨hv1, hv2⟩
  | waitLock =>
    cases hlk : s.lock with
    | none =>
      have hstep : step s i =
          { s with lock := some i, pcs := Function.update s.pcs i .inCritical } := by
        unfold step; rw [hpc, hlk]
      rw [hstep]
      refine ⟨?_, ?_, ?_, ?_, ?_, ?_⟩
      · intro j hj
        dsimp only at hj ⊢
        rw [Function.update_apply] at hj
        split at hj
        · next hji => rw [hji]
        · next hji =>
            have hl := hLock j hj
            rw [hlk] at hl
            exact absurd hl (by simp)
      · dsimp only
        rw [filter_update_same s.pcs i .inCritical (by simp [hpc, isRefresherDone])]
        exact hCount
      · intro j r hj
        dsimp only at hj ⊢
        rw [Function.update_apply] at hj
        split at hj
        · exact absurd hj (by simp)
        · exact hPos j r hj
      · intro j k r hjk hj hk
        dsimp only at hj hk
        rw [Function.update_apply] at hj hk
        split at hj
        · exact absurd hj (by simp)
        · split at hk
          · exact absurd hk (by simp)
          · exact hDist j k r hjk hj hk
      · exact hFresh
      · intro j r hj
        dsimp only at hj ⊢
        rw [Function.update_apply] at hj
        split at hj
        · exact absurd hj (by simp)
        · exact hCached j r hj
    | some owner =>
      have hstep : step s i = s := by
        unfold step; rw [hpc, hlk]
      rw [hstep]
      exact hInv
  | inCritical =>
    have hstep : step s i =
        { s with
            token := some (s.exchanges + 1)
            fresh := true
            lock := none
            exchanges := s.exchanges + 1
            pcs := Function.update s.pcs i (.done true (s.exchanges + 1)) } := by
      unfold step; rw [hpc]
    have hnotmem : i ∉ (Finset.univ.filter fun j => isRefresherDone (s.pcs j) = true) := by
      simp [hpc, isRefresherDone]
    rw [hstep]
    refine ⟨?_, ?_, ?_, ?_, ?_, ?_⟩
    · intro j hj
      dsimp only at hj ⊢
      rw [Function.update_apply] at hj
      split at hj
      · exact absurd hj (by simp)
      · next hji =>
          have h1 := hLock j hj
          have h2 := hLock i hpc
          rw [h2] at h1
          injection h1 with h3
          exact absurd h3.symm hji
    · dsimp only
      rw [filter_update_fresh s.pcs i (.done true (s.exchanges + 1)) (by simp [isRefresherDone])]
      rw [Finset.card_insert_of_not_mem hnotmem]
      omega
    · intro j r hj
      dsimp only at hj ⊢
      rw [Function.update_apply] at hj
      split at hj
      · cases hj; omega
      · have := hPos j r hj
        omega
    · intro j k r hjk hj hk
      dsimp only at hj hk
      rw [Function.update_apply] at hj hk
      split at hj
      · next hji =>
          cases hj
          split at hk
          · next hki => exact hjk (by rw [hji, hki])
          · have := hPos k _ hk
            omega
      · split at hk
        · cases hk
          have := hPos j _ hj
          omega
        · exact hDist j k r hjk hj hk
    · intro _
      exact ⟨s.exchanges + 1, rfl, by omega, le_rfl⟩
    · intro j r hj
      dsimp only at hj ⊢
      rw [Function.update_apply] at hj
      split at hj
      · exact absurd hj (by simp)
      · have := hCached j r hj
        omega
  | done v r =>
    have hstep : step s i = s := by
      unfold step; rw [hpc]
    rw [hstep]
    exact hInv

/-- The invariant is preserved by any run. -/
theorem inv_run {n : Nat} {s : Sys n} (h : Inv s) (sched : List (Fin n)) :
    Inv (run s sched) := by
  induction sched generalizing s with
  | nil => exact h
  | cons i rest ih => exact ih (inv_step h i)

end Contention

/-! ## Claim theorems -/

/-- C6: whenever a credential refresh fails — non-200 status, a response body
containing an `error` key, or a network error — `refresh_access_token` raises
a `ZohoTokenException` and leaves the shared credential state (access token,
expiry, api_domain) exactly as it was before the call. -/
theorem C6_refresh_failure_raises_and_preserves_state
    (st : TokenManager.TMState) (s : TokenManager.Settings) (now : Int)
    (resp : Except String TokenManager.TokenResponse) :
    (∀ r, resp = .ok r → r.status_code ≠ 200 →
      ∃ msg, TokenManager.refresh_access_token st s now resp =
        (.error (.zohoTokenExc msg), st))
    ∧ (∀ r, resp = .ok r → r.status_code = 200 → Json.hasKey r.body "error" = true →
      ∃ msg, TokenManager.refresh_access_token st s now resp =
        (.error (.zohoTokenExc msg), st))
    ∧ (∀ e, resp = .error e →
      ∃ msg, TokenManager.refresh_access_token st s now resp =
        (.error (.zohoTokenExc msg), st)) := by
  refine ⟨?_, ?_, ?_⟩
  · intro r hr hst
    subst hr
    refine ⟨"Failed to refresh token: " ++ toString r.status_code, ?_⟩
    simp [TokenManager.refresh_access_token, hst]
  · intro r hr hst herr
    subst hr
    refine ⟨"Zoho error", ?_⟩
    simp [TokenManager.refresh_access_token, hst, herr]
  · intro e he
    subst he
    exact ⟨"Network error: " ++ e, rfl⟩

/-- Witness for C6 at a concrete failing exchange (status 400). -/
theorem C6_witness :
    ∃ msg, TokenManager.refresh_access_token
        ⟨some (.str "old"), some 50, none⟩ ⟨300, "base"⟩ 100 (.ok ⟨400, []⟩) =
      (.error (.zohoTokenExc msg), ⟨some (.str "old"), some 50, none⟩) :=
  (C6_refresh_failure_raises_and_preserves_state
    ⟨some (.str "old"), some 50, none⟩ ⟨300, "base"⟩ 100 (.ok ⟨400, []⟩)).1
    ⟨400, []⟩ rfl (by decide)

/-- C7: `get_access_token` returns the cached token without refreshing exactly
when a (truthy) token and an expiry exist and the current time is strictly
earlier than `expires_at - refresh_buffer`; otherwise (token missing or the
buffer reached) it performs a synchronous refresh and returns that refresh's
result. -/
theorem C7_refresh_buffer_boundary
    (st : TokenManager.TMState) (s : TokenManager.Settings) (now : Int)
    (resp : Except String TokenManager.TokenResponse) :
    ((TokenManager.get_access_token st s now resp).2.2 = false ↔
      ∃ tok exp, st.access_token = some tok ∧ tok.truthy = true ∧
        st.token_expiry = some exp ∧ now < exp - s.ZOHO_TOKEN_REFRESH_BUFFER)
    ∧ (∀ tok exp, st.access_token = some tok → tok.truthy = true →
        st.token_expiry = some exp → now < exp - s.ZOHO_TOKEN_REFRESH_BUFFER →
        TokenManager.get_access_token st s now resp = (.ok tok, st, false))
    ∧ ((TokenManager.get_access_token st s now resp).2.2 = true →
        ((TokenManager.get_access_token st s now resp).1,
         (TokenManager.get_access_token st s now resp).2.1) =
          TokenManager.refresh_access_token st s now resp) := by
  unfold TokenManager.get_access_token
  refine ⟨?_, ?_, ?_⟩
  · constructor
    · intro h
      cases htok : st.access_token with
      | none => rw [htok] at h; cases hexp : st.token_expiry <;> simp [hexp] at h
      | some tok =>
        cases hexp : st.token_expiry with
        | none => rw [htok, hexp] at h; simp at h
        | some exp =>
          rw [htok, hexp] at h
          by_cases htr : tok.truthy
          · by_cases hlt : now < exp - s.ZOHO_TOKEN_REFRESH_BUFFER
            · exact ⟨tok, exp, rfl, htr, rfl, hlt⟩
            · simp [htr, hlt] at h
          · simp [htr] at h
    · rintro ⟨tok, exp, htok, htr, hexp, hlt⟩
      rw [htok, hexp]
      simp [htr, hlt]
  · intro tok exp htok htr hexp hlt
    rw [htok, hexp]
    simp [htr, hlt]
  · intro h
    cases htok : st.access_token with
    | none =>
      cases hexp : st.token_expiry <;> rfl
    | some tok =>
      cases hexp : st.token_expiry with
      | none => rfl
      | some exp =>
        by_cases htr : tok.truthy
        · by_cases hlt : now < exp - s.ZOHO_TOKEN_REFRESH_BUFFER
          · rw [htok, hexp] at h; simp [htr, hlt] at h
          · simp [htok, hexp, htr, hlt]
        · simp [htok, hexp, htr]

/-- Witness for C7: a token 700 s from expiry with a 300 s buffer is returned
from cache without a refresh. -/
theorem C7_witness :
    TokenManager.get_access_token ⟨some (.str "tok"), some 1000, none⟩ ⟨300, "base"⟩ 600
        (.ok ⟨200, [("access_token", .str "new")]⟩) =
      (.ok (.str "tok"), ⟨some (.str "tok"), some 1000, none⟩, false) :=
  (C7_refresh_buffer_boundary ⟨some (.str "tok"), some 1000, none⟩ ⟨300, "base"⟩ 600
      (.ok ⟨200, [("access_token", .str "new")]⟩)).2.1
    (.str "tok") 1000 rfl (by decide) rfl (by decide)

/-- C9: on a 401 first response, `_make_request` forces exactly one credential
refresh and retries exactly once; a still-failing retry is surfaced as the
final error (no second refresh or retry exists).  A non-401 first response
forces no refresh and no retry. -/
theorem C9_refresh_and_retry_once_on_401
    (first : Except String CrmService.HttpResp)
    (refreshResult : Except String Unit)
    (second : Except String CrmService.HttpResp) :
    (∀ r, first = .ok r → r.status_code = 401 → refreshResult = .ok () →
      (CrmService.make_request first refreshResult second).2 = ⟨1, 2⟩
      ∧ (∀ r2, second = .ok r2 → 400 ≤ r2.status_code →
          (CrmService.make_request first refreshResult second).1 =
            .error (.zohoAPIExc r2.status_code))
      ∧ (∀ r2, second = .ok r2 → r2.status_code < 400 →
          (CrmService.make_request first refreshResult second).1 = .ok r2.body)
      ∧ (∀ e2, second = .error e2 →
          (CrmService.make_request first refreshResult second).1 = .error .zohoAPIExcNet))
    ∧ (∀ r e, first = .ok r → r.status_code = 401 → refreshResult = .error e →
        CrmService.make_request first refreshResult second = (.error .tokenExc, ⟨1, 1⟩))
    ∧ (∀ r, first = .ok r → r.status_code ≠ 401 →
        (CrmService.make_request first refreshResult second).2.refresh_calls = 0
        ∧ (CrmService.make_request first refreshResult second).2.requests_sent = 1) := by
  refine ⟨?_, ?_, ?_⟩
  · intro r hr h401 hrf
    subst hr; subst hrf
    have h429 : r.status_code ≠ 429 := by omega
    refine ⟨?_, ?_, ?_, ?_⟩
    · cases second with
      | error e2 => simp [CrmService.make_request, h429, h401]
      | ok r2 =>
        by_cases h4 : 400 ≤ r2.status_code <;>
          simp [CrmService.make_request, h429, h401, h4]
    · intro r2 hr2 h4
      subst hr2
      simp [CrmService.make_request, h429, h401, h4]
    · intro r2 hr2 h4
      subst hr2
      have : ¬ 400 ≤ r2.status_code := by omega
      simp [CrmService.make_request, h429, h401, this]
    · intro e2 he2
      subst he2
      simp [CrmService.make_request, h429, h401]
  · intro r e hr h401 hrf
    subst hr; subst hrf
    have h429 : r.status_code ≠ 429 := by omega
    simp [CrmService.make_request, h429, h401]
  · intro r hr h401
    subst hr
    by_cases h429 : r.status_code = 429
    · simp [CrmService.make_request, h429]
    · by_cases h4 : 400 ≤ r.status_code <;>
        simp [CrmService.make_request, h429, h401, h4]

/-- Witness for C9: a 401 followed by a successful refresh and a 200 retry
performs one refresh, two requests, and returns the retried body. -/
theorem C9_witness :
    (CrmService.make_request (.ok ⟨401, .null⟩) (.ok ()) (.ok ⟨200, .str "data"⟩)).2 = ⟨1, 2⟩
    ∧ (CrmService.make_request (.ok ⟨401, .null⟩) (.ok ()) (.ok ⟨200, .str "data"⟩)).1 =
        .ok (.str "data") := by
  have h := (C9_refresh_and_retry_once_on_401 (.ok ⟨401, .null⟩) (.ok ())
    (.ok ⟨200, .str "data"⟩)).1 ⟨401, .null⟩ rfl rfl rfl
  exact ⟨h.1, h.2.2.1 ⟨200, .str "data"⟩ rfl (by decide)⟩

/-- C10: every successful `save_analysis` writes `created_at` and `updated_at`
as the same write timestamp, and overwriting an existing record replaces its
original `created_at` with the new write time rather than preserving the time
the record was first created. -/
theorem C10_created_at_always_rewritten
    (tbl : DealCache.Table) (dealId : String) (a : DealAnalysis)
    (mk sc mt : Option (List Json)) (now : Int) :
    (DealCache.save_analysis true tbl dealId a mk sc mt now).1 = true
    ∧ ((DealCache.lookupItem (DealCache.save_analysis true tbl dealId a mk sc mt now).2 dealId).map
        fun it => (it.created_at, it.updated_at)) = some (now, now)
    ∧ (∀ (b : DealAnalysis) (mk2 sc2 mt2 : Option (List Json)) (now2 : Int),
        ((DealCache.lookupItem
          (DealCache.save_analysis true
            (DealCache.save_analysis true tbl dealId a mk sc mt now).2
            dealId b mk2 sc2 mt2 now2).2 dealId).map
          fun it => (it.created_at, it.updated_at)) = some (now2, now2)) := by
  refine ⟨rfl, ?_, ?_⟩
  · simp [DealCache.save_analysis, DealCache.putItem, DealCache.lookupItem]
  · intro b mk2 sc2 mt2 now2
    simp [DealCache.save_analysis, DealCache.putItem, DealCache.lookupItem]

/-- C2 counterexample: with two concurrent `get_access_token` callers that
both observe the expired credential before either refreshes (the natural
schedule, since the wire exchange suspends while the check does not), the run
performs **two** refresh exchanges — not one — and the callers return the
two distinct tokens of their own exchanges. -/
theorem C2_counterexample :
    (Contention.run (Contention.init 2 none) [0, 1, 0, 0, 1, 1]).exchanges = 2
    ∧ (Contention.run (Contention.init 2 none) [0, 1, 0, 0, 1, 1]).pcs 0 =
        .done true 1
    ∧ (Contention.run (Contention.init 2 none) [0, 1, 0, 0, 1, 1]).pcs 1 =
        .done true 2
    ∧ ¬ (Contention.run (Contention.init 2 none) [0, 1, 0, 0, 1, 1]).exchanges = 1 := by
  refine ⟨rfl, rfl, rfl, by decide⟩

/-- C2 (amended): the lock serializes the refresh critical sections (mutual
exclusion holds in every reachable state), but refreshes are not deduplicated:
the number of exchanges performed always equals the number of callers that
entered the refresh path, each such caller returning the distinct token of
its own exchange rather than a shared one; a caller whose check runs after
some completed refresh adopts that refresh's token without an exchange. -/
theorem C2_serialized_but_not_single_refresh
    (n : Nat) (staleToken : Option Nat) (sched : List (Fin n)) :
    (∀ i j, (Contention.run (Contention.init n staleToken) sched).pcs i = .inCritical →
      (Contention.run (Contention.init n staleToken) sched).pcs j = .inCritical → i = j)
    ∧ (Contention.run (Contention.init n staleToken) sched).exchanges =
        (Finset.univ.filter fun i =>
          Contention.isRefresherDone ((Contention.run (Contention.init n staleToken) sched).pcs i)
            = true).card
    ∧ (∀ i j r, i ≠ j →
        (Contention.run (Contention.init n staleToken) sched).pcs i = .done true r →
        (Contention.run (Contention.init n staleToken) sched).pcs j = .done true r → False)
    ∧ (∀ i r, (Contention.run (Contention.init n staleToken) sched).pcs i = .done false r →
        1 ≤ r ∧ r ≤ (Contention.run (Contention.init n staleToken) sched).exchanges) := by
  have hInv := Contention.inv_run (Contention.inv_init n staleToken) sched
  refine ⟨?_, hInv.countEq, hInv.retDistinct, hInv.cachedRet⟩
  intro i j hi hj
  have h1 := hInv.lockCrit i hi
  have h2 := hInv.lockCrit j hj
  rw [h1] at h2
  injection h2

/-- Witness for C2 (amended) on a concrete run: one task refreshes, the
second then adopts the refreshed token from the cache without an exchange. -/
theorem C2_witness :
    1 ≤ 1 ∧ 1 ≤ (Contention.run (Contention.init 2 none) [0, 0, 0, 1, 1]).exchanges :=
  (C2_serialized_but_not_single_refresh 2 none [0, 0, 0, 1, 1]).2.2.2 1 1 rfl

set_option maxRecDepth 40000
set_option maxHeartbeats 2000000

/-- The failure message `_run_main_analysis` feeds into the default analysis
data: the exception text when the generation call raises, the fixed parse
message when all three parse attempts fail, nothing otherwise. -/
def DealService.mainFailureMessage : Except String String → Option String
  | .error e => some e
  | .ok t =>
    match DealService.parse_pipeline t.toList with
    | none => some "Failed to parse LLM response"
    | some _ => none

/-- The scoring call degrades to defaults: it raises, or its output fails all
three parse attempts. -/
def DealService.scoringDegraded : Except String String → Prop
  | .error _ => True
  | .ok t => DealService.parse_pipeline t.toList = none

/-- C1 counterexample: `analyze_deal` *can* raise to its caller — here the
main generation call times out and the scoring call parses successfully to
`fit_score = 15`, and the final `DealAnalysis(**analysis_data)` raises a
pydantic `ValidationError` (`ge=1, le=10` validates, it does not clamp). -/
theorem C1_counterexample :
    DealService.analyze_deal [] none (.error "timeout")
        (.ok "\x7b\"scoring_rubric\": \x7b\x7d, \"fit_score\": 15\x7d") =
      .error (.validation "fit_score") := by
  rfl

/-- C1 (amended): when the main generation call raises or its output fails
all three parse attempts, and the scoring call likewise degrades, then
`analyze_deal` raises nothing and returns the fully-populated default
analysis: `confidence_level = "Low"`, a notes entry naming the failure,
`fit_score = 5` (within [1,10]), and the default identity/insight fields.
(The unamended "never raises" is refuted by `C1_counterexample`: a parsed
response carrying a schema-invalid field value makes the final validation
raise.) -/
theorem C1_degraded_path_returns_low_default
    (dealData : List (String × Json)) (attachmentText : Option String)
    (mainResp scoringResp : Except String String) (em : String)
    (hm : DealService.mainFailureMessage mainResp = some em)
    (hs : DealService.scoringDegraded scoringResp) :
    (DealService.analyze_deal dealData attachmentText mainResp scoringResp).map
        (fun da => (da.confidence_level, da.fit_score, da.notes, da.company_name,
          da.support_required, da.key_insights, da.questions_to_ask.length,
          da.scoring_rubric)) =
      .ok ("Low", 5, ["Automated analysis failed: " ++ em], "Unknown",
        "Manual review required",
        ["Analysis could not be completed - manual review required"], 5,
        DealService.defaultRubric) := by
  cases mainResp with
  | error e =>
    simp only [DealService.mainFailureMessage, Option.some.injEq] at hm
    subst hm
    cases scoringResp with
    | error e2 => rfl
    | ok t =>
      simp only [DealService.scoringDegraded] at hs
      simp only [DealService.analyze_deal, DealService.run_main_analysis,
        DealService.run_scoring_rubric, DealService.parse_response, hs]
      rfl
  | ok t =>
    simp only [DealService.mainFailureMessage] at hm
    cases hp : DealService.parse_pipeline t.toList with
    | some v => rw [hp] at hm; cases hm
    | none =>
      rw [hp] at hm
      cases hm
      cases scoringResp with
      | error e2 =>
        simp only [DealService.analyze_deal, DealService.run_main_analysis,
          DealService.parse_response, hp]
        rfl
      | ok t2 =>
        simp only [DealService.scoringDegraded] at hs
        simp only [DealService.analyze_deal, DealService.run_main_analysis,
          DealService.run_scoring_rubric, DealService.parse_response, hp, hs]
        rfl

/-- Witness for C1 (amended): both calls time out. -/
theorem C1_witness :
    (DealService.analyze_deal [] none (.error "Read timed out") (.error "Read timed out")).map
        (fun da => (da.confidence_level, da.fit_score, da.notes, da.company_name,
          da.support_required, da.key_insights, da.questions_to_ask.length,
          da.scoring_rubric)) =
      .ok ("Low", 5, ["Automated analysis failed: Read timed out"], "Unknown",
        "Manual review required",
        ["Analysis could not be completed - manual review required"], 5,
        DealService.defaultRubric) :=
  C1_degraded_path_returns_low_default [] none (.error "Read timed out")
    (.error "Read timed out") "Read timed out" rfl trivial

/-! Reduction helpers for `Except` do-chains. -/

theorem exceptBind_ok {ε α β : Type} (a : α) (f : α → Except ε β) :
    (Except.ok a >>= f) = f a := rfl

theorem exceptBind_err {ε α β : Type} (e : ε) (f : α → Except ε β) :
    ((Except.error e : Except ε α) >>= f) = Except.error e := rfl

theorem exceptMap_ok {ε α β : Type} (f : α → β) (a : α) :
    (Except.ok a : Except ε α).map f = Except.ok (f a) := rfl

theorem exceptMap_err {ε α β : Type} (f : α → β) (e : ε) :
    (Except.error e : Except ε α).map f = Except.error e := rfl

theorem exceptPure {ε α : Type} (a : α) :
    (pure a : Except ε α) = Except.ok a := rfl

/-- The analysis dict reaching `DealAnalysis(**analysis_data)` when the main
call raised with message `em` and the scoring merge supplied rubric `rub` and
integer fit score `k`. -/
def DealService.defaultMergedDict (em : String) (rub : List (String × Json)) (k : Int) :
    List (String × PyVal) :=
  [("company_name", .j (.str "Unknown")),
   ("country", .j (.str "Unknown")),
   ("region", .j (.str "Unknown")),
   ("summary", .j (.str "Unable to determine from available data")),
   ("product_description", .j (.str "Unable to determine from available data")),
   ("vertical", .j (.str "Unknown")),
   ("business_model", .j (.str "Unknown")),
   ("motion", .j (.str "Unknown")),
   ("raise_stage", .j (.str "Unknown")),
   ("company_size", .j (.str "Unknown")),
   ("revenue_top_5_customers", .listA []),
   ("scoring_rubric", .j (.obj rub)),
   ("fit_score", .j (.int k)),
   ("fit_assessment", .j (.str "")),
   ("icp_mapping", .j (.str "Unknown")),
   ("likely_icp_canada", .j (.str "Unknown")),
   ("support_required", .j (.str "Manual review required")),
   ("support_recommendations", .j (.arr [.str "Manual assessment needed due to analysis failure"])),
   ("pricing_summary", .j .null),
   ("key_insights", .j (.arr [.str "Analysis could not be completed - manual review required"])),
   ("questions_to_ask", .j (.arr
     [.str "What is your core product and who is your primary customer?",
      .str "Have you explored the Canadian market before?",
      .str "What is your current GTM motion?",
      .str "What stage of funding are you at?",
      .str "What would success in Canada look like for you?"])),
   ("confidence_level", .j (.str "Low")),
   ("notes", .j (.arr [.str ("Automated analysis failed: " ++ em)]))]

/-- C3 counterexample: a parsed `fit_score` of 15 is *not* clamped into
[1,10]; pydantic's `ge=1, le=10` validation raises a `ValidationError` out of
`analyze_deal` instead (main call returns an empty JSON object, scoring call
returns `fit_score: 15`). -/
theorem C3_counterexample :
    DealService.analyze_deal [] none (.ok "\x7b\x7d")
        (.ok "\x7b\"scoring_rubric\": \x7b\"gtm_clarity\": 4\x7d, \"fit_score\": 15\x7d") =
      .error (.validation "fit_score") := by
  rfl

attribute [irreducible] DealAnalysis.validate

set_option maxHeartbeats 4000000 in
/-- With a raised main call and a scoring dict of rubric `rub` and fit `k`,
`analyze_deal` reduces to the pydantic validation of the merged default
dict. -/
theorem DealService.analyze_deal_error_main
    (dealData : List (String × Json)) (attachmentText : Option String)
    (em : String) (scoringResp : Except String String)
    (rub : List (String × Json)) (k : Int)
    (hs : DealService.run_scoring_rubric scoringResp =
      .obj [("scoring_rubric", .obj rub), ("fit_score", .int k)]) :
    DealService.analyze_deal dealData attachmentText (.error em) scoringResp =
      DealAnalysis.validate (DealService.defaultMergedDict em rub k) := by
  simp only [DealService.analyze_deal, DealService.run_main_analysis, hs]
  rfl

set_option maxHeartbeats 4000000 in
/-- Pydantic validation of the merged default dict: everything validates to
the default analysis except `fit_score`, whose `ge=1, le=10` bounds decide
between success and a raised `ValidationError`. -/
theorem DealService.validate_defaultMergedDict
    (em : String) (rub : List (String × Json)) (k : Int) :
    DealAnalysis.validate (DealService.defaultMergedDict em rub k) =
      (if 1 ≤ k ∧ k ≤ 10 then
        Except.ok
          { company_name := "Unknown", country := "Unknown", region := "Unknown",
            summary := "Unable to determine from available data",
            product_description := "Unable to determine from available data",
            vertical := "Unknown", business_model := "Unknown", motion := "Unknown",
            raise_stage := "Unknown", company_size := "Unknown",
            revenue_top_5_customers := [], scoring_rubric := rub, fit_score := k,
            fit_assessment := "", icp_mapping := "Unknown",
            likely_icp_canada := "Unknown",
            support_required := "Manual review required",
            support_recommendations := ["Manual assessment needed due to analysis failure"],
            key_insights := ["Analysis could not be completed - manual review required"],
            questions_to_ask :=
              ["What is your core product and who is your primary customer?",
               "Have you explored the Canadian market before?",
               "What is your current GTM motion?",
               "What stage of funding are you at?",
               "What would success in Canada look like for you?"],
            confidence_level := "Low",
            notes := ["Automated analysis failed: " ++ em],
            extras := [("pricing_summary", .j .null)] }
      else .error (.validation "fit_score")) := by
  by_cases hk : 1 ≤ k ∧ k ≤ 10 <;>
    simp [DealAnalysis.validate, DealService.defaultMergedDict, PyDict.getVal,
      strFieldP, strFieldJ, strListFieldP, strListFieldJ, intFieldJ, Json.numAsInt,
      Json.int, exceptMapList, DealAnalysis.fieldNames, exceptBind_ok, exceptBind_err, hk]

/-- C3 (amended): a parsed integer `fit_score` already in [1,10] reaches the
final `DealAnalysis` unchanged; an out-of-range value makes the construction
raise a `ValidationError` out of `analyze_deal` — the value is validated
against `ge=1, le=10`, never clamped. -/
theorem C3_fit_score_validated_not_clamped
    (dealData : List (String × Json)) (attachmentText : Option String)
    (em : String) (scoringResp : Except String String)
    (rub : List (String × Json)) (k : Int)
    (hs : DealService.run_scoring_rubric scoringResp =
      .obj [("scoring_rubric", .obj rub), ("fit_score", .int k)]) :
    (1 ≤ k ∧ k ≤ 10 →
      (DealService.analyze_deal dealData attachmentText (.error em) scoringResp).map
          (fun da => (da.fit_score, da.scoring_rubric)) = .ok (k, rub))
    ∧ (¬ (1 ≤ k ∧ k ≤ 10) →
      DealService.analyze_deal dealData attachmentText (.error em) scoringResp =
        .error (.validation "fit_score")) := by
  have hA := DealService.analyze_deal_error_main dealData attachmentText em scoringResp rub k hs
  have hB := DealService.validate_defaultMergedDict em rub k
  constructor
  · intro hk
    rw [hA, hB, if_pos hk]
    rfl
  · intro hk
    rw [hA, hB, if_neg hk]

/-- Witness for C3 (amended): a scoring response with `fit_score = 7` flows
through unchanged. -/
theorem C3_witness :
    (DealService.analyze_deal [] none (.error "t")
        (.ok "\x7b\"scoring_rubric\": \x7b\"gtm_clarity\": 4\x7d, \"fit_score\": 7\x7d")).map
        (fun da => (da.fit_score, da.scoring_rubric)) =
      .ok (7, [("gtm_clarity", .num 4 0)]) :=
  (C3_fit_score_validated_not_clamped [] none "t"
      (.ok "\x7b\"scoring_rubric\": \x7b\"gtm_clarity\": 4\x7d, \"fit_score\": 7\x7d")
      [("gtm_clarity", .num 4 0)] 7 (by rfl)).1 (by decide)

/-! C4 setup: a family of generated pricing line items whose supplied totals
may disagree with `quantity × unit_price_eur`. -/

/-- A generated line item: name, category, quantity, unit price, and whatever
total the generator claimed (an arbitrary JSON value — it is discarded). -/
structure LineSpec where
  service_name : String
  category : String
  quantity : Int
  unit_price_eur : Int
  supplied_total : Json

/-- The JSON dict the generator produced for the line item. -/
def LineSpec.itemJson (sp : LineSpec) : Json :=
  .obj [("service_name", .str sp.service_name), ("category", .str sp.category),
    ("quantity", .int sp.quantity), ("unit_price_eur", .int sp.unit_price_eur),
    ("total_price_eur", sp.supplied_total)]

/-- The validated line item: `total_price_eur` recomputed as
`quantity × unit_price_eur`. -/
def LineSpec.lineItem (sp : LineSpec) : PricingLineItem :=
  ⟨sp.service_name, "", sp.category, sp.quantity, sp.unit_price_eur,
    sp.quantity * sp.unit_price_eur⟩

/-- The recomputed total over the line items. -/
def LineSpec.totalOf (specs : List LineSpec) : Int :=
  specs.foldl (fun acc sp => acc + sp.quantity * sp.unit_price_eur) 0

theorem lineSpec_convert (specs : List LineSpec) :
    exceptMapList (fun e =>
      match e with
      | .obj im => (PricingLineItem.validate im).map PyAtom.item
      | other => Except.ok (PyAtom.j other)) (specs.map LineSpec.itemJson) =
    .ok (specs.map fun sp => PyAtom.item sp.lineItem) := by
  induction specs with
  | nil => rfl
  | cons sp rest ih =>
    simp only [List.map_cons, exceptMapList, LineSpec.itemJson]
    rw [show (PricingLineItem.validate
        [("service_name", .str sp.service_name), ("category", .str sp.category),
         ("quantity", .int sp.quantity), ("unit_price_eur", .int sp.unit_price_eur),
         ("total_price_eur", sp.supplied_total)]).map PyAtom.item =
        .ok (PyAtom.item sp.lineItem) from rfl]
    rw [exceptBind_ok, ih]
    rfl

theorem lineSpec_sum (specs : List LineSpec) (acc : Int) :
    DealService.sumTotalsFrom acc (specs.map fun sp => PyAtom.item sp.lineItem) =
      .ok (specs.foldl (fun a sp => a + sp.quantity * sp.unit_price_eur) acc) := by
  induction specs generalizing acc with
  | nil => rfl
  | cons sp rest ih =>
    simp only [List.map_cons, DealService.sumTotalsFrom, List.foldl_cons]
    exact ih (acc + sp.quantity * sp.unit_price_eur)

theorem lineSpec_validate_items (specs : List LineSpec) :
    exceptMapList (fun a =>
      match a with
      | .item li => Except.ok li
      | .j (.obj im) => PricingLineItem.validate im
      | _ => Except.error (PyError.validation "recommended_services"))
      (specs.map fun sp => PyAtom.item sp.lineItem) =
    .ok (specs.map LineSpec.lineItem) := by
  induction specs with
  | nil => rfl
  | cons sp rest ih =>
    simp only [List.map_cons, exceptMapList]
    rw [exceptBind_ok, ih]
    rfl

set_option maxHeartbeats 4000000 in
/-- C4: for a parsed `pricing_summary` whose generated per-item totals and
grand total disagree with `quantity × unit_price`, the stored
`PricingSummary` carries each line item's `total_price_eur` recomputed as
`quantity × unit_price_eur` and `total_cost_eur` equal to the sum of those
recomputed products — the generator-supplied numbers (`supplied_total`, `g`)
never appear. -/
theorem C4_pricing_totals_recomputed
    (dealData : List (String × Json)) (attachmentText : Option String)
    (mt : String) (specs : List LineSpec) (g ge : Int) (es : String)
    (hparse : DealService.parse_pipeline mt.toList = some (.obj
      [("pricing_summary", .obj
        [("recommended_services", .arr (specs.map LineSpec.itemJson)),
         ("total_cost_eur", .num g ge)])])) :
    (DealService.analyze_deal dealData attachmentText (.ok mt) (.error es)).map
        (fun da => PyDict.getVal da.extras "pricing_summary") =
      .ok (some (.pricing
        ⟨specs.map LineSpec.lineItem, LineSpec.totalOf specs, []⟩)) := by
  have h1 : DealService.analyze_deal dealData attachmentText (.ok mt) (.error es) =
      DealAnalysis.validate
        [("pricing_summary", .pricing
            ⟨specs.map LineSpec.lineItem, LineSpec.totalOf specs, []⟩),
         ("scoring_rubric", .j (.obj DealService.defaultRubric)),
         ("fit_score", .j (.num 5 0)),
         ("fit_assessment", .j (.str "Scoring unavailable - manual assessment recommended"))] := by
    have hparse2 : DealService.parse_pipeline mt.data = some (.obj
        [("pricing_summary", .obj
          [("recommended_services", .arr (specs.map LineSpec.itemJson)),
           ("total_cost_eur", .num g ge)])]) := hparse
    simp [DealService.analyze_deal, DealService.run_main_analysis,
      DealService.parse_response, hparse2, DealService.convert_revenue,
      DealService.convert_pricing, PyDict.getVal, PyDict.setVal,
      DealService.pyIterate, Json.getKey, Json.getD, lineSpec_convert,
      lineSpec_sum, lineSpec_validate_items, PricingSummary.validate,
      intFieldJ, Json.numAsInt, Json.int, strListFieldJ,
      DealService.run_scoring_rubric, DealService.get_default_scoring_data,
      DealService.dictGet, exceptBind_ok, exceptBind_err, DealService.sumTotals,
      LineSpec.totalOf]
  have h2 : DealAnalysis.validate
        [("pricing_summary", .pricing
            ⟨specs.map LineSpec.lineItem, LineSpec.totalOf specs, []⟩),
         ("scoring_rubric", .j (.obj DealService.defaultRubric)),
         ("fit_score", .j (.num 5 0)),
         ("fit_assessment", .j (.str "Scoring unavailable - manual assessment recommended"))] =
      .ok
        { company_name := "Unknown", country := "Unknown", region := "Unknown",
          summary := "", product_description := "Unknown", vertical := "Unknown",
          business_model := "Unknown", motion := "Unknown", raise_stage := "Unknown",
          company_size := "Unknown", revenue_top_5_customers := [],
          scoring_rubric := DealService.defaultRubric, fit_score := 5,
          fit_assessment := "Scoring unavailable - manual assessment recommended",
          icp_mapping := "Unknown", likely_icp_canada := "Unknown",
          support_required := "", support_recommendations := [],
          key_insights := [], questions_to_ask := [],
          confidence_level := "Medium", notes := [],
          extras := [("pricing_summary", .pricing
            ⟨specs.map LineSpec.lineItem, LineSpec.totalOf specs, []⟩)] } := by
    simp [DealAnalysis.validate, PyDict.getVal, strFieldP, strFieldJ,
      strListFieldP, strListFieldJ, intFieldJ, Json.numAsInt, Json.int,
      exceptMapList, DealAnalysis.fieldNames, exceptBind_ok, exceptBind_err]
  rw [h1, h2]
  rfl

/-- Witness for C4: one line item with quantity 2, unit price 3, generated
total 999, and a generated grand total 12345: the stored summary carries 6
and 6. -/
theorem C4_witness :
    (DealService.analyze_deal [] none
      (.ok "\x7b\"pricing_summary\": \x7b\"recommended_services\": [\x7b\"service_name\": \"A\", \"category\": \"x\", \"quantity\": 2, \"unit_price_eur\": 3, \"total_price_eur\": 999\x7d], \"total_cost_eur\": 12345\x7d\x7d")
      (.error "t")).map (fun da => PyDict.getVal da.extras "pricing_summary") =
      .ok (some (.pricing ⟨[⟨"A", "", "x", 2, 3, 6⟩], 6, []⟩)) :=
  C4_pricing_totals_recomputed [] none
    "\x7b\"pricing_summary\": \x7b\"recommended_services\": [\x7b\"service_name\": \"A\", \"category\": \"x\", \"quantity\": 2, \"unit_price_eur\": 3, \"total_price_eur\": 999\x7d], \"total_cost_eur\": 12345\x7d\x7d"
    [⟨"A", "x", 2, 3, .num 999 0⟩] 12345 0 "t" (by rfl)

/-! C8 setup: the cache write serializes `analysis.model_dump()` and the read
re-validates it; these lemmas show the validation recovers the value, with
extra keys read back as plain JSON. -/

/-- A stored analysis as it reads back: identical declared fields, extra keys
as plain JSON values. -/
def DealAnalysis.roundtripped (a : DealAnalysis) : DealAnalysis :=
  { a with extras := a.extras.map fun kv => (kv.1, PyVal.j kv.2.toJson) }

theorem custList_roundtrip (fieldName : String) (cs : List RevenueCustomer) :
    exceptMapList (fun e =>
      match e with
      | .obj cm => RevenueCustomer.validate cm
      | _ => Except.error (PyError.validation fieldName))
      (cs.map fun c => Json.obj c.dumpFields) = .ok cs := by
  induction cs with
  | nil => rfl
  | cons c rest ih =>
    simp only [List.map_cons, exceptMapList]
    rw [show RevenueCustomer.validate c.dumpFields = .ok c from rfl]
    rw [exceptBind_ok, ih]
    rfl

theorem strListJ_roundtrip (fieldName : String) (l : List String) :
    strListFieldJ fieldName (some (.arr (l.map Json.str))) = .ok l := by
  induction l with
  | nil => rfl
  | cons s rest ih =>
    simp only [List.map_cons, strListFieldJ, exceptMapList] at ih ⊢
    rw [exceptBind_ok, ih]
    rfl

theorem strListP_roundtrip (fieldName : String) (l : List String) :
    strListFieldP fieldName (some (.j (.arr (l.map Json.str)))) = .ok l :=
  strListJ_roundtrip fieldName l

theorem extras_filter_kept (l : List (String × PyVal))
    (hex : ∀ kv ∈ l, DealAnalysis.fieldNames.contains kv.1 = false) :
    ((l.map fun kv => (kv.1, PyVal.j kv.2.toJson)).filter
      fun kv => ! DealAnalysis.fieldNames.contains kv.1) =
    l.map fun kv => (kv.1, PyVal.j kv.2.toJson) := by
  induction l with
  | nil => rfl
  | cons kv rest ih =>
    have h1 := hex kv (by simp)
    simp only [List.map_cons, List.filter_cons, h1]
    simp only [Bool.not_false, if_pos]
    rw [ih fun kv2 h2 => hex kv2 (by simp [h2])]

set_option maxHeartbeats 4000000 in
/-- Reading back a dumped analysis re-validates to the same value (extra keys
as plain JSON), as long as its `fit_score` is within the schema bounds and its
extra keys do not collide with declared fields (pydantic guarantees the
latter by construction). -/
theorem DealAnalysis.validateJson_dump (a : DealAnalysis)
    (h1 : 1 ≤ a.fit_score) (h2 : a.fit_score ≤ 10)
    (hex : ∀ kv ∈ a.extras, DealAnalysis.fieldNames.contains kv.1 = false) :
    DealAnalysis.validateJson a.dump = .ok a.roundtripped := by
  have hex2 : ∀ kv ∈ (a.extras.map fun kv => (kv.1, PyVal.j kv.2.toJson)),
      (!decide (kv.1 ∈ DealAnalysis.fieldNames)) = true := by
    intro kv hkv
    obtain ⟨kv0, hkv0, rfl⟩ := List.mem_map.mp hkv
    simpa using hex kv0 hkv0
  unfold DealAnalysis.validateJson DealAnalysis.dump
  simp [DealAnalysis.validate, PyDict.getVal, strFieldP, strFieldJ,
    intFieldJ, Json.numAsInt, Json.int, custList_roundtrip, strListP_roundtrip,
    h1, h2, exceptBind_ok, exceptBind_err, DealAnalysis.roundtripped]
  rw [show List.map ((fun kv => (kv.1, PyVal.j kv.2)) ∘
      fun (kv : String × PyVal) => (kv.1, kv.2.toJson)) a.extras
      = List.map (fun kv => (kv.1, PyVal.j kv.2.toJson)) a.extras from by
    simp [Function.comp]]
  simp only [List.filter_cons, DealAnalysis.fieldNames]
  simp only [List.mem_cons, List.mem_singleton]
  norm_num
  intro k v x x1 hmem hk hv
  subst hk
  have h3 : DealAnalysis.fieldNames.contains x = false := hex (x, x1) hmem
  simpa [DealAnalysis.fieldNames, not_or] using h3

/-- Reading a round-tripped analysis back and dumping it again produces the
same serialized form: the read-back value is structurally equal to what was
written. -/
theorem DealAnalysis.dump_roundtripped (a : DealAnalysis) :
    a.roundtripped.dump = a.dump := by
  simp [DealAnalysis.roundtripped, DealAnalysis.dump, PyVal.toJson]

set_option maxHeartbeats 1000000 in
/-- C8: `save_analysis(id, A)` then `get_cached_data(id)` returns a record
structurally equal to `A`'s analysis (same serialized form; extra keys read
back as plain JSON) together with the marketing/similar-customers/meetings
lists, any unsupplied list read back empty; a never-written id reads as
`none`; and a second `save_analysis(id, B)` overwrites wholesale, so the read
returns `B`'s data, never a merge. -/
theorem C8_cache_round_trip_and_overwrite
    (tbl : DealCache.Table) (dealId : String) (a b : DealAnalysis)
    (mk sc mt mk2 sc2 mt2 : Option (List Json)) (now now2 : Int)
    (ha1 : 1 ≤ a.fit_score) (ha2 : a.fit_score ≤ 10)
    (hax : ∀ kv ∈ a.extras, DealAnalysis.fieldNames.contains kv.1 = false)
    (hb1 : 1 ≤ b.fit_score) (hb2 : b.fit_score ≤ 10)
    (hbx : ∀ kv ∈ b.extras, DealAnalysis.fieldNames.contains kv.1 = false) :
    (DealCache.save_analysis true tbl dealId a mk sc mt now).1 = true
    ∧ DealCache.get_cached_data true
        (DealCache.save_analysis true tbl dealId a mk sc mt now).2 dealId =
        some (a.roundtripped, mk.getD [], sc.getD [], mt.getD [])
    ∧ a.roundtripped.dump = a.dump
    ∧ (∀ id2, DealCache.lookupItem tbl id2 = none →
        DealCache.get_cached_data true tbl id2 = none)
    ∧ DealCache.get_cached_data true
        (DealCache.save_analysis true
          (DealCache.save_analysis true tbl dealId a mk sc mt now).2
          dealId b mk2 sc2 mt2 now2).2 dealId =
        some (b.roundtripped, mk2.getD [], sc2.getD [], mt2.getD []) := by
  refine ⟨rfl, ?_, DealAnalysis.dump_roundtripped a, ?_, ?_⟩
  · simp [DealCache.save_analysis, DealCache.get_cached_data, DealCache.putItem,
      DealCache.lookupItem, DealAnalysis.validateJson_dump a ha1 ha2 hax]
  · intro id2 h2
    simp [DealCache.get_cached_data, h2]
  · simp [DealCache.save_analysis, DealCache.get_cached_data, DealCache.putItem,
      DealCache.lookupItem, DealAnalysis.validateJson_dump b hb1 hb2 hbx]

/-- Witness for C8 at a concrete analysis with one extra key and partially
supplied artifact lists. -/
theorem C8_witness :
    DealCache.get_cached_data true
      (DealCache.save_analysis true [] "d1"
        ⟨"Acme", "U", "U", "", "U", "U", "U", "U", "U", "U", [], [], 7, "", "U", "U",
          "", [], [], [], "High", ["n1"], [("pricing_summary", .j .null)]⟩
        (some [.str "m1"]) none none 100).2 "d1" =
      some
        (⟨"Acme", "U", "U", "", "U", "U", "U", "U", "U", "U", [], [], 7, "", "U", "U",
          "", [], [], [], "High", ["n1"], [("pricing_summary", .j .null)]⟩,
         [.str "m1"], [], []) :=
  (C8_cache_round_trip_and_overwrite [] "d1"
    ⟨"Acme", "U", "U", "", "U", "U", "U", "U", "U", "U", [], [], 7, "", "U", "U",
      "", [], [], [], "High", ["n1"], [("pricing_summary", .j .null)]⟩
    ⟨"Acme", "U", "U", "", "U", "U", "U", "U", "U", "U", [], [], 7, "", "U", "U",
      "", [], [], [], "High", ["n1"], [("pricing_summary", .j .null)]⟩
    (some [.str "m1"]) none none (some [.str "m1"]) none none 100 200
    (by decide) (by decide) (by decide) (by decide) (by decide) (by decide)).2.1

/-! ## C5: truncated-JSON repair

The repair heuristic is not total over all truncation points outside string
literals — a cut that strands a bare key (its quote closed but the colon not
yet emitted) repairs to `{"key"}`, which does not parse.  The family below
isolates the truncation points the repair does handle on flat objects. -/

/-- C5 counterexample: `\x7b"a":1\x7d` is a syntactically valid JSON object;
truncating it at byte offset 4 — outside any string literal (the scan of the
prefix ends with `in_string = false`) — yields `\x7b"a"`, which every stage
of `_parse_response` fails on: the structural repair appends `\x7d` to the
stranded key, producing the unparseable `\x7b"a"\x7d`. -/
theorem C5_counterexample :
    (PyJson.loads ("\x7b\"a\":1\x7d".toList)).isSome = true
    ∧ "\x7b\"a\":1\x7d".toList.take 4 = "\x7b\"a\"".toList
    ∧ (DealService.scan ("\x7b\"a\"".toList)).inString = false
    ∧ DealService.repair_truncated_json ("\x7b\"a\"".toList) = "\x7b\"a\"\x7d".toList
    ∧ PyJson.loads ("\x7b\"a\"\x7d".toList) = none
    ∧ DealService.parse_pipeline ("\x7b\"a\"".toList) = none :=
  ⟨rfl, rfl, rfl, rfl, rfl, rfl⟩

namespace FlatJson

/-- A character usable inside a rendered string literal (no quote, no
backslash, no control character). -/
def plainChar (c : Char) : Bool :=
  decide (c ≠ '"') && decide (c ≠ '\\') && decide (32 ≤ c.toNat)

/-- An atomic JSON value of the flat-object family. -/
inductive FlatVal where
  | vStr (s : List Char)
  | vNum (ds : List Char)
  | vTrue
  | vFalse
  | vNull

def renderVal : FlatVal → List Char
  | .vStr s => '"' :: s ++ ['"']
  | .vNum ds => ds
  | .vTrue => ['t', 'r', 'u', 'e']
  | .vFalse => ['f', 'a', 'l', 's', 'e']
  | .vNull => ['n', 'u', 'l', 'l']

def renderPair (kv : List Char × FlatVal) : List Char :=
  '"' :: kv.1 ++ '"' :: ':' :: renderVal kv.2

/-- Comma-joined members, no whitespace (as the models emit them). -/
def renderPairs : List (List Char × FlatVal) → List Char
  | [] => []
  | kv :: rest =>
    renderPair kv ++ (if rest.isEmpty then [] else ',' :: renderPairs rest)

def renderObj (kvs : List (List Char × FlatVal)) : List Char :=
  '{' :: renderPairs kvs ++ ['}']

def goodKey (k : List Char) : Prop :=
  k ≠ [] ∧ ∀ c ∈ k, plainChar c = true

def goodVal : FlatVal → Prop
  | .vStr s => ∀ c ∈ s, plainChar c = true
  | .vNum ds => ds ≠ [] ∧ (∀ c ∈ ds, c.isDigit = true) ∧ (ds.head? = some '0' → ds = ['0'])
  | _ => True

def goodKvs (kvs : List (List Char × FlatVal)) : Prop :=
  ∀ kv ∈ kvs, goodKey kv.1 ∧ goodVal kv.2

/-- A truncation point of the rendered object that falls outside every string
literal and at a token boundary: right after the opening brace, right after
the `j`-th complete member, right after the comma following it, or right
after the colon of the `j+1`-st member (stranding no bare key and no partial
literal). -/
inductive CutPos where
  | afterBrace
  | afterPair (j : Nat)
  | afterComma (j : Nat)
  | afterColon (j : Nat)

/-- The truncated text at a cut position. -/
def truncAt (kvs : List (List Char × FlatVal)) : CutPos → List Char
  | .afterBrace => ['{']
  | .afterPair j => '{' :: renderPairs (kvs.take j)
  | .afterComma j => '{' :: renderPairs (kvs.take j) ++ [',']
  | .afterColon j =>
    '{' :: renderPairs (kvs.take j) ++ (if j = 0 then [] else [',']) ++
      (match kvs.get? j with
       | some kv => '"' :: kv.1 ++ ['"', ':']
       | none => [])

/-- Which cut positions exist for a given member list. -/
def validCut (kvs : List (List Char × FlatVal)) : CutPos → Prop
  | .afterBrace => True
  | .afterPair j => 1 ≤ j ∧ j ≤ kvs.length
  | .afterComma j => 1 ≤ j ∧ j < kvs.length
  | .afterColon j => j < kvs.length

end FlatJson

namespace FlatJson

/-! Scan lemmas: the repair's bracket scan walks the rendered members without
changing state. -/

/-- A character that the scan ignores outside strings. -/
def neutralChar (c : Char) : Bool :=
  decide (c ≠ '"') && decide (c ≠ '\\') && decide (c ≠ '{') &&
    decide (c ≠ '[') && decide (c ≠ '}') && decide (c ≠ ']')

def scanFrom (st : DealService.ScanState) (cs : List Char) : DealService.ScanState :=
  cs.foldl DealService.scanStep st

theorem scanFrom_append (st : DealService.ScanState) (a b : List Char) :
    scanFrom st (a ++ b) = scanFrom (scanFrom st a) b :=
  List.foldl_append ..

theorem scanFrom_cons (st : DealService.ScanState) (c : Char) (cs : List Char) :
    scanFrom st (c :: cs) = scanFrom (DealService.scanStep st c) cs :=
  rfl

theorem scanStep_neutral (stk : List Char) (c : Char) (h : neutralChar c = true) :
    DealService.scanStep ⟨stk, false, false⟩ c = ⟨stk, false, false⟩ := by
  simp only [neutralChar, Bool.and_eq_true, decide_eq_true_eq] at h
  obtain ⟨⟨⟨⟨⟨h1, h2⟩, h3⟩, h4⟩, h5⟩, h6⟩ := h
  simp [DealService.scanStep, h1, h2, h3, h4, h5, h6]

theorem scanFrom_neutral (cs : List Char) (stk : List Char)
    (h : ∀ c ∈ cs, neutralChar c = true) :
    scanFrom ⟨stk, false, false⟩ cs = ⟨stk, false, false⟩ := by
  induction cs with
  | nil => rfl
  | cons c rest ih =>
    rw [scanFrom_cons, scanStep_neutral stk c (h c (by simp))]
    exact ih fun c2 h2 => h c2 (by simp [h2])

theorem scanStep_inString (stk : List Char) (c : Char)
    (h : plainChar c = true) :
    DealService.scanStep ⟨stk, true, false⟩ c = ⟨stk, true, false⟩ := by
  simp only [plainChar, Bool.and_eq_true, decide_eq_true_eq] at h
  simp [DealService.scanStep, h.1.1, h.1.2]

theorem scanFrom_inString (cs : List Char) (stk : List Char)
    (h : ∀ c ∈ cs, plainChar c = true) :
    scanFrom ⟨stk, true, false⟩ cs = ⟨stk, true, false⟩ := by
  induction cs with
  | nil => rfl
  | cons c rest ih =>
    rw [scanFrom_cons, scanStep_inString stk c (h c (by simp))]
    exact ih fun c2 h2 => h c2 (by simp [h2])

theorem scanFrom_stringLit (s : List Char) (stk : List Char)
    (h : ∀ c ∈ s, plainChar c = true) :
    scanFrom ⟨stk, false, false⟩ (('"' :: s) ++ ['"']) = ⟨stk, false, false⟩ := by
  rw [List.cons_append, scanFrom_cons]
  rw [show DealService.scanStep ⟨stk, false, false⟩ '"' = ⟨stk, true, false⟩ by
    simp [DealService.scanStep]]
  rw [scanFrom_append, scanFrom_inString s stk h]
  simp [scanFrom, DealService.scanStep]

theorem digit_neutral (c : Char) (h : c.isDigit = true) : neutralChar c = true := by
  simp only [neutralChar, Bool.and_eq_true, decide_eq_true_eq]
  refine ⟨⟨⟨⟨⟨?_, ?_⟩, ?_⟩, ?_⟩, ?_⟩, ?_⟩ <;> rintro rfl <;> simp [Char.isDigit] at h

theorem scanFrom_renderVal (v : FlatVal) (stk : List Char) (h : goodVal v) :
    scanFrom ⟨stk, false, false⟩ (renderVal v) = ⟨stk, false, false⟩ := by
  cases v with
  | vStr s => exact scanFrom_stringLit s stk h
  | vNum ds =>
    exact scanFrom_neutral ds stk fun c hc => digit_neutral c (h.2.1 c hc)
  | vTrue => exact scanFrom_neutral _ stk (by decide)
  | vFalse => exact scanFrom_neutral _ stk (by decide)
  | vNull => exact scanFrom_neutral _ stk (by decide)

theorem scanFrom_renderPair (kv : List Char × FlatVal) (stk : List Char)
    (hk : goodKey kv.1) (hv : goodVal kv.2) :
    scanFrom ⟨stk, false, false⟩ (renderPair kv) = ⟨stk, false, false⟩ := by
  have hsplit : renderPair kv = (('"' :: kv.1) ++ ['"']) ++ (':' :: renderVal kv.2) := by
    simp [renderPair]
  rw [hsplit, scanFrom_append, scanFrom_stringLit kv.1 stk hk.2, scanFrom_cons]
  rw [scanStep_neutral stk ':' (by decide)]
  exact scanFrom_renderVal kv.2 stk hv

theorem scanFrom_renderPairs (kvs : List (List Char × FlatVal)) (stk : List Char)
    (h : goodKvs kvs) :
    scanFrom ⟨stk, false, false⟩ (renderPairs kvs) = ⟨stk, false, false⟩ := by
  induction kvs with
  | nil => rfl
  | cons kv rest ih =>
    have hkv := h kv (by simp)
    rw [renderPairs, scanFrom_append, scanFrom_renderPair kv stk hkv.1 hkv.2]
    cases rest with
    | nil => rfl
    | cons kv2 rest2 =>
      simp only [List.isEmpty_cons, Bool.false_eq_true, if_neg, if_false]
      rw [scanFrom_cons, scanStep_neutral stk ',' (by decide)]
      exact ih fun kv3 h3 => h kv3 (by simp [h3])

theorem goodKvs_take (kvs : List (List Char × FlatVal)) (j : Nat)
    (h : goodKvs kvs) : goodKvs (kvs.take j) :=
  fun kv hkv => h kv (List.mem_of_mem_take hkv)

/-- The repair scan of any of the truncated texts: one open brace, not inside
a string. -/
theorem scan_truncAt (kvs : List (List Char × FlatVal)) (pos : CutPos)
    (h : goodKvs kvs) :
    DealService.scan (truncAt kvs pos) = ⟨['{'], false, false⟩ := by
  have hbrace : DealService.scanStep ⟨[], false, false⟩ '{' = ⟨['{'], false, false⟩ := by
    simp [DealService.scanStep]
  cases pos with
  | afterBrace =>
    simp [DealService.scan, truncAt, List.foldl, hbrace]
  | afterPair j =>
    show scanFrom ⟨[], false, false⟩ _ = _
    rw [truncAt, scanFrom_cons, hbrace]
    exact scanFrom_renderPairs _ _ (goodKvs_take kvs j h)
  | afterComma j =>
    show scanFrom ⟨[], false, false⟩ _ = _
    rw [truncAt, scanFrom_append]
    rw [show scanFrom ⟨[], false, false⟩ ('{' :: renderPairs (kvs.take j)) =
        ⟨['{'], false, false⟩ from by
      rw [scanFrom_cons, hbrace]
      exact scanFrom_renderPairs _ _ (goodKvs_take kvs j h)]
    exact scanFrom_neutral [','] _ (by decide)
  | afterColon j =>
    show scanFrom ⟨[], false, false⟩ _ = _
    rw [truncAt, scanFrom_append, scanFrom_append]
    rw [show scanFrom ⟨[], false, false⟩ ('{' :: renderPairs (kvs.take j)) =
        ⟨['{'], false, false⟩ from by
      rw [scanFrom_cons, hbrace]
      exact scanFrom_renderPairs _ _ (goodKvs_take kvs j h)]
    rw [show scanFrom ⟨['{'], false, false⟩ (if j = 0 then ([] : List Char) else [',']) =
        ⟨['{'], false, false⟩ from by
      by_cases hj : j = 0
      · simp [hj, scanFrom]
      · simp only [if_neg hj]
        exact scanFrom_neutral [','] _ (by decide)]
    cases hg : kvs.get? j with
    | none => rfl
    | some kv =>
      have hkv := h kv (List.get?_mem hg)
      dsimp only
      rw [show ('"' :: kv.1 ++ ['"', ':']) = (('"' :: kv.1) ++ ['"']) ++ [':'] by simp]
      rw [scanFrom_append, scanFrom_stringLit kv.1 _ hkv.1.2]
      exact scanFrom_neutral [':'] _ (by decide)

end FlatJson

namespace FlatJson

/-! Last-character and string-surgery lemmas for the repair's closing loop. -/

/-- A character a complete member can end with: not whitespace, not a comma,
not a colon (so the closing loop appends the brace directly). -/
def GoodEnd (c : Char) : Prop :=
  c.isWhitespace = false ∧ c ≠ ',' ∧ c ≠ ':'

theorem rstrip_eq_self (t : List Char) (c : Char)
    (hlast : t.getLast? = some c) (hc : c.isWhitespace = false) :
    DealService.rstrip t = t := by
  have hrev : t.reverse.head? = some c := (List.head?_reverse t).symm ▸ hlast
  unfold DealService.rstrip
  cases hr : t.reverse with
  | nil => rw [hr] at hrev; cases hrev
  | cons c0 rest =>
    rw [hr] at hrev
    injection hrev with hc0
    subst hc0
    rw [List.dropWhile_cons_of_neg (by simp [hc])]
    rw [← hr, List.reverse_reverse]

theorem rstripComma_eq_self (t : List Char) (c : Char)
    (hlast : t.getLast? = some c) (hc : c ≠ ',') :
    DealService.rstripComma t = t := by
  have hrev : t.reverse.head? = some c := (List.head?_reverse t).symm ▸ hlast
  unfold DealService.rstripComma
  cases hr : t.reverse with
  | nil => rw [hr] at hrev; cases hrev
  | cons c0 rest =>
    rw [hr] at hrev
    injection hrev with hc0
    subst hc0
    rw [List.dropWhile_cons_of_neg (by simp [hc])]
    rw [← hr, List.reverse_reverse]

theorem rstripComma_concat (x : List Char) (c : Char)
    (hlast : x.getLast? = some c) (hc : c ≠ ',') :
    DealService.rstripComma (x ++ [',']) = x := by
  have hrev : x.reverse.head? = some c := (List.head?_reverse x).symm ▸ hlast
  unfold DealService.rstripComma
  rw [List.reverse_append]
  cases hr : x.reverse with
  | nil => rw [hr] at hrev; cases hrev
  | cons c0 rest =>
    rw [hr] at hrev
    injection hrev with hc0
    subst hc0
    show (List.dropWhile _ (',' :: c0 :: rest)).reverse = x
    rw [List.dropWhile_cons_of_pos (by simp)]
    rw [List.dropWhile_cons_of_neg (by simp [hc])]
    rw [← hr, List.reverse_reverse]

theorem endsWithChar_of_getLast (t : List Char) (c d : Char)
    (hlast : t.getLast? = some c) :
    DealService.endsWithChar t d = decide (c = d) := by
  simp [DealService.endsWithChar, hlast]

theorem rfindLast_concat_self (c : Char) (xs : List Char) :
    DealService.rfindLast c (xs ++ [c]) = some xs.length := by
  induction xs with
  | nil => simp [DealService.rfindLast]
  | cons x rest ih => simp [DealService.rfindLast, ih]

theorem rfindLast_eq_none (c : Char) (ys : List Char) (h : ∀ a ∈ ys, a ≠ c) :
    DealService.rfindLast c ys = none := by
  induction ys with
  | nil => rfl
  | cons y rest ih =>
    rw [DealService.rfindLast, ih fun a ha => h a (by simp [ha])]
    simp [h y (by simp)]

theorem rfindLast_append_notin (c : Char) (xs ys : List Char)
    (h : ∀ a ∈ ys, a ≠ c) :
    DealService.rfindLast c (xs ++ c :: ys) = some xs.length := by
  induction xs with
  | nil =>
    rw [List.nil_append, DealService.rfindLast, rfindLast_eq_none c ys h]
    simp
  | cons x rest ih => simp [DealService.rfindLast, ih]

theorem renderPairs_ne_nil (kv : List Char × FlatVal)
    (rest : List (List Char × FlatVal)) :
    renderPairs (kv :: rest) ≠ [] := by
  rw [renderPairs, renderPair]
  simp

theorem renderVal_ne_nil (v : FlatVal) (h : goodVal v) : renderVal v ≠ [] := by
  cases v with
  | vStr s => simp [renderVal]
  | vNum ds => simpa [renderVal] using h.1
  | vTrue => simp [renderVal]
  | vFalse => simp [renderVal]
  | vNull => simp [renderVal]

theorem goodEnd_digit (c : Char) (h : c.isDigit = true) : GoodEnd c := by
  have hw : c.isWhitespace = false := by
    cases hww : c.isWhitespace
    · rfl
    · exfalso
      simp only [Char.isWhitespace, Bool.or_eq_true, decide_eq_true_eq] at hww
      rcases hww with ((rfl | rfl) | rfl) | rfl <;> simp [Char.isDigit] at h
  refine ⟨hw, ?_, ?_⟩ <;> rintro rfl <;> simp [Char.isDigit] at h

theorem renderVal_last (v : FlatVal) (h : goodVal v) :
    ∃ c, (renderVal v).getLast? = some c ∧ GoodEnd c := by
  cases v with
  | vStr s =>
    refine ⟨'"', ?_, by refine ⟨rfl, ?_, ?_⟩ <;> decide⟩
    show (('"' :: s) ++ ['"']).getLast? = some '"'
    exact List.getLast?_concat _
  | vNum ds =>
    obtain ⟨hne, hdig, _⟩ := h
    have hsome : (renderVal (.vNum ds)).getLast?.isSome := by
      rw [List.getLast?_isSome]
      simpa [renderVal] using hne
    obtain ⟨c, hc⟩ := Option.isSome_iff_exists.mp hsome
    refine ⟨c, hc, goodEnd_digit c (hdig c ?_)⟩
    have hc2 : ds.getLast? = some c := by simpa [renderVal] using hc
    obtain ⟨hne2, heq⟩ := List.mem_getLast?_eq_getLast (Option.mem_def.mpr hc2)
    exact heq ▸ List.getLast_mem hne2
  | vTrue => exact ⟨'e', by rfl, by refine ⟨rfl, ?_, ?_⟩ <;> decide⟩
  | vFalse => exact ⟨'e', by rfl, by refine ⟨rfl, ?_, ?_⟩ <;> decide⟩
  | vNull => exact ⟨'l', by rfl, by refine ⟨rfl, ?_, ?_⟩ <;> decide⟩

theorem renderPair_last (kv : List Char × FlatVal) (hv : goodVal kv.2) :
    ∃ c, (renderPair kv).getLast? = some c ∧ GoodEnd c := by
  obtain ⟨c, hc, hg⟩ := renderVal_last kv.2 hv
  refine ⟨c, ?_, hg⟩
  rw [renderPair]
  rw [List.getLast?_append_of_ne_nil _ (by simp)]
  show ('"' :: ':' :: renderVal kv.2).getLast? = some c
  rw [show ('"' :: ':' :: renderVal kv.2) = ['"', ':'] ++ renderVal kv.2 from rfl]
  rw [List.getLast?_append_of_ne_nil _ (renderVal_ne_nil kv.2 hv)]
  exact hc

theorem renderPairs_last (p : List (List Char × FlatVal)) (hne : p ≠ [])
    (h : goodKvs p) :
    ∃ c, (renderPairs p).getLast? = some c ∧ GoodEnd c := by
  induction p with
  | nil => exact absurd rfl hne
  | cons kv rest ih =>
    cases rest with
    | nil =>
      obtain ⟨c, hc, hg⟩ := renderPair_last kv (h kv (by simp)).2
      refine ⟨c, ?_, hg⟩
      simp only [renderPairs, List.isEmpty_nil, if_pos, List.append_nil]
      exact hc
    | cons kv2 rest2 =>
      obtain ⟨c, hc, hg⟩ := ih (by simp) (fun kv3 h3 => h kv3 (by simp [h3]))
      refine ⟨c, ?_, hg⟩
      rw [renderPairs]
      simp only [List.isEmpty_cons, Bool.false_eq_true, if_false]
      rw [List.getLast?_append_of_ne_nil _ (by simp)]
      show (',' :: renderPairs (kv2 :: rest2)).getLast? = some c
      rw [show (',' :: renderPairs (kv2 :: rest2)) = [','] ++ renderPairs (kv2 :: rest2) from rfl]
      rw [List.getLast?_append_of_ne_nil _ (renderPairs_ne_nil kv2 rest2)]
      exact hc

end FlatJson

namespace FlatJson

/-! Computation of the repair routine on each truncated text. -/

theorem renderPairs_ne_nil2 (p : List (List Char × FlatVal)) (hne : p ≠ []) :
    renderPairs p ≠ [] := by
  cases p with
  | nil => exact absurd rfl hne
  | cons kv rest => exact renderPairs_ne_nil kv rest

theorem cons_renderPairs_last (p : List (List Char × FlatVal)) (hne : p ≠ [])
    (h : goodKvs p) :
    ∃ c, ('{' :: renderPairs p).getLast? = some c ∧ GoodEnd c := by
  obtain ⟨c, hc, hg⟩ := renderPairs_last p hne h
  refine ⟨c, ?_, hg⟩
  rw [show ('{' :: renderPairs p) = ['{'] ++ renderPairs p from rfl]
  rw [List.getLast?_append_of_ne_nil _ (renderPairs_ne_nil2 p hne)]
  exact hc

theorem take_ne_nil2 (j : Nat) (kvs : List (List Char × FlatVal))
    (h1 : 1 ≤ j) (h2 : 1 ≤ kvs.length) : kvs.take j ≠ [] := by
  have hlen : 0 < (kvs.take j).length := by
    rw [List.length_take]
    omega
  exact List.ne_nil_of_length_pos hlen

theorem repair_eq_closeOne (t : List Char)
    (h1 : DealService.rstrip t = t)
    (h2 : DealService.scan t = ⟨['{'], false, false⟩) :
    DealService.repair_truncated_json t = DealService.closeOne t '{' := by
  unfold DealService.repair_truncated_json
  simp only [h1, h2, reduceIte, List.foldl_cons, List.foldl_nil]
  rw [if_neg (by simp), if_neg (by simp)]

theorem closeOne_goodEnd (t : List Char) (c : Char)
    (hlast : t.getLast? = some c) (hg : GoodEnd c) :
    DealService.closeOne t '{' = t ++ ['}'] := by
  obtain ⟨hws, hcomma, hcolon⟩ := hg
  have h1 : DealService.rstrip t = t := rstrip_eq_self t c hlast hws
  have h2 : DealService.endsWithChar t ',' = false := by
    rw [endsWithChar_of_getLast t c ',' hlast]
    simp [hcomma]
  have h3 : DealService.endsWithChar t ':' = false := by
    rw [endsWithChar_of_getLast t c ':' hlast]
    simp [hcolon]
  simp only [DealService.closeOne, reduceIte, h1, h2, h3, Bool.false_eq_true,
    if_false]

theorem closeOne_comma (t0 : List Char) (c : Char)
    (hlast : t0.getLast? = some c) (hg : GoodEnd c) :
    DealService.closeOne (t0 ++ [',']) '{' = t0 ++ ['}'] := by
  have hlastc : (t0 ++ [',']).getLast? = some ',' := List.getLast?_concat _
  have h1 : DealService.rstrip (t0 ++ [',']) = t0 ++ [','] :=
    rstrip_eq_self _ ',' hlastc (by decide)
  have h2 : DealService.endsWithChar (t0 ++ [',']) ',' = true := by
    rw [endsWithChar_of_getLast _ ',' ',' hlastc]
    decide
  have hdrop : (t0 ++ [',']).dropLast = t0 := by simp
  have h3 : DealService.endsWithChar t0 ':' = false := by
    rw [endsWithChar_of_getLast t0 c ':' hlast]
    simp [hg.2.2]
  simp only [DealService.closeOne, reduceIte, h1, h2, if_true, hdrop, h3,
    Bool.false_eq_true, if_false]

theorem closeOne_colon (A key : List Char)
    (hkey : ∀ c ∈ key, plainChar c = true) :
    DealService.closeOne (A ++ ('"' :: key) ++ ['"', ':']) '{'
      = DealService.rstripComma (DealService.rstrip A) ++ ['}'] := by
  have hkq : ∀ c ∈ key, c ≠ '"' := by
    intro c hc
    have hpc := hkey c hc
    simp only [plainChar, Bool.and_eq_true, decide_eq_true_eq] at hpc
    exact hpc.1.1
  have hlast : (A ++ ('"' :: key) ++ ['"', ':']).getLast? = some ':' := by
    rw [List.getLast?_append_of_ne_nil _ (by simp)]
    rfl
  have h1 : DealService.rstrip (A ++ ('"' :: key) ++ ['"', ':'])
      = A ++ ('"' :: key) ++ ['"', ':'] :=
    rstrip_eq_self _ ':' hlast (by decide)
  have h2 : DealService.endsWithChar (A ++ ('"' :: key) ++ ['"', ':']) ',' = false := by
    rw [endsWithChar_of_getLast _ ':' ',' hlast]
    rfl
  have h3 : DealService.endsWithChar (A ++ ('"' :: key) ++ ['"', ':']) ':' = true := by
    rw [endsWithChar_of_getLast _ ':' ':' hlast]
    decide
  have htake1 : (A ++ ('"' :: key) ++ ['"', ':']).take
      ((A ++ ('"' :: key) ++ ['"', ':']).length - 1) = (A ++ ('"' :: key)) ++ ['"'] := by
    rw [show A ++ ('"' :: key) ++ ['"', ':'] = ((A ++ ('"' :: key)) ++ ['"']) ++ [':'] from
      by simp]
    rw [List.take_left' (by simp)]
  have hq1 : DealService.rfindBefore (A ++ ('"' :: key) ++ ['"', ':']) '"'
      ((A ++ ('"' :: key) ++ ['"', ':']).length - 1) = some (A ++ ('"' :: key)).length := by
    unfold DealService.rfindBefore
    rw [htake1, rfindLast_concat_self]
  have hpos : 0 < (A ++ ('"' :: key)).length := by simp
  have htake2 : (A ++ ('"' :: key) ++ ['"', ':']).take (A ++ ('"' :: key)).length
      = A ++ ('"' :: key) := List.take_left _ _
  have hq2 : DealService.rfindBefore (A ++ ('"' :: key) ++ ['"', ':']) '"'
      (A ++ ('"' :: key)).length = some A.length := by
    unfold DealService.rfindBefore
    rw [htake2]
    exact rfindLast_append_notin '"' A key hkq
  have htake3 : (A ++ ('"' :: key) ++ ['"', ':']).take A.length = A := by
    rw [show A ++ ('"' :: key) ++ ['"', ':'] = A ++ (('"' :: key) ++ ['"', ':']) from
      by simp]
    exact List.take_left _ _
  simp only [DealService.closeOne, reduceIte, h1, h2, Bool.false_eq_true, if_false,
    h3, if_true, hq1, eq_true hpos, hq2, htake3]

def keepCount : CutPos → Nat
  | .afterBrace => 0
  | .afterPair j => j
  | .afterComma j => j
  | .afterColon j => j

/-- The repair routine maps every token-boundary truncation of a rendered flat
object to the rendered object over the members kept. -/
theorem repair_truncAt (kvs : List (List Char × FlatVal)) (pos : CutPos)
    (h : goodKvs kvs) (hv : validCut kvs pos) :
    DealService.repair_truncated_json (truncAt kvs pos)
      = renderObj (kvs.take (keepCount pos)) := by
  cases pos with
  | afterBrace =>
    rfl
  | afterPair j =>
    obtain ⟨hj1, hj2⟩ := hv
    have hpne : kvs.take j ≠ [] := take_ne_nil2 j kvs hj1 (le_trans hj1 hj2)
    have hpg : goodKvs (kvs.take j) := goodKvs_take kvs j h
    obtain ⟨c, hc, hg⟩ := cons_renderPairs_last (kvs.take j) hpne hpg
    rw [show truncAt kvs (.afterPair j) = '{' :: renderPairs (kvs.take j) from rfl]
    rw [repair_eq_closeOne _ (rstrip_eq_self _ c hc hg.1)
      (scan_truncAt kvs (.afterPair j) h)]
    exact closeOne_goodEnd _ c hc hg
  | afterComma j =>
    obtain ⟨hj1, hj2⟩ := hv
    have hpne : kvs.take j ≠ [] := take_ne_nil2 j kvs hj1 (by omega)
    have hpg : goodKvs (kvs.take j) := goodKvs_take kvs j h
    obtain ⟨c, hc, hg⟩ := cons_renderPairs_last (kvs.take j) hpne hpg
    have hlastc : (('{' :: renderPairs (kvs.take j)) ++ [',']).getLast? = some ',' :=
      List.getLast?_concat _
    rw [show truncAt kvs (.afterComma j)
        = ('{' :: renderPairs (kvs.take j)) ++ [','] from rfl]
    rw [repair_eq_closeOne _ (rstrip_eq_self _ ',' hlastc (by decide))
      (scan_truncAt kvs (.afterComma j) h)]
    exact closeOne_comma _ c hc hg
  | afterColon j =>
    have hjlen : j < kvs.length := hv
    obtain ⟨kv, hget⟩ : ∃ kv, kvs.get? j = some kv := by
      rw [List.get?_eq_get hjlen]
      exact ⟨_, rfl⟩
    have hkv := h kv (List.get?_mem hget)
    have hshape : truncAt kvs (.afterColon j)
        = (('{' :: renderPairs (kvs.take j)) ++ (if j = 0 then [] else [',']))
          ++ ('"' :: kv.1) ++ ['"', ':'] := by
      rw [show truncAt kvs (.afterColon j)
          = ('{' :: renderPairs (kvs.take j)) ++ (if j = 0 then [] else [','])
            ++ (match kvs.get? j with
                | some kv => '"' :: kv.1 ++ ['"', ':']
                | none => []) from rfl]
      rw [hget]
      simp
    have hclose := closeOne_colon
      (('{' :: renderPairs (kvs.take j)) ++ (if j = 0 then [] else [','])) kv.1 hkv.1.2
    by_cases hj : j = 0
    · subst hj
      have hA : ('{' :: renderPairs (kvs.take 0)) ++ (if (0 : Nat) = 0 then [] else [','])
          = ['{'] := by simp [renderPairs]
      rw [hshape]
      rw [repair_eq_closeOne _ ?_ ?_]
      · rw [hclose, hA]
        rfl
      · rw [← hshape]
        obtain ⟨c, hc, hg⟩ : ∃ c, (truncAt kvs (.afterColon 0)).getLast? = some c ∧ c = ':' := by
          rw [hshape]
          refine ⟨':', ?_, rfl⟩
          rw [List.getLast?_append_of_ne_nil _ (by simp)]
          rfl
        subst hg
        exact rstrip_eq_self _ ':' hc (by decide)
      · rw [← hshape]
        exact scan_truncAt kvs (.afterColon 0) h
    · have hj1 : 1 ≤ j := Nat.one_le_iff_ne_zero.mpr hj
      have hpne : kvs.take j ≠ [] := take_ne_nil2 j kvs hj1 (by omega)
      have hpg : goodKvs (kvs.take j) := goodKvs_take kvs j h
      obtain ⟨c, hc, hg⟩ := cons_renderPairs_last (kvs.take j) hpne hpg
      have hA : ('{' :: renderPairs (kvs.take j)) ++ (if j = 0 then [] else [','])
          = ('{' :: renderPairs (kvs.take j)) ++ [','] := by
        rw [if_neg hj]
      have hstrip : DealService.rstripComma (DealService.rstrip
          (('{' :: renderPairs (kvs.take j)) ++ (if j = 0 then [] else [','])))
          = '{' :: renderPairs (kvs.take j) := by
        rw [hA, rstrip_eq_self _ ',' (List.getLast?_concat _) (by decide)]
        exact rstripComma_concat _ c hc hg.2.1
      rw [hshape]
      rw [repair_eq_closeOne _ ?_ ?_]
      · rw [hclose, hstrip]
        rfl
      · obtain ⟨clast, hcl, hcg⟩ : ∃ cl, ((('{' :: renderPairs (kvs.take j))
            ++ (if j = 0 then [] else [','])) ++ ('"' :: kv.1) ++ ['"', ':']).getLast?
            = some cl ∧ cl = ':' := by
          refine ⟨':', ?_, rfl⟩
          rw [List.getLast?_append_of_ne_nil _ (by simp)]
          rfl
        subst hcg
        exact rstrip_eq_self _ ':' hcl (by decide)
      · rw [← hshape]
        exact scan_truncAt kvs (.afterColon j) h

end FlatJson

namespace FlatJson

theorem digit_ne (c a : Char) (h : c.isDigit = true) (ha : a.isDigit = false) :
    c ≠ a :=
  fun he => absurd (he ▸ h) (by simp [ha])

theorem digit_not_jsonWs (c : Char) (h : c.isDigit = true) :
    PyJson.isJsonWs c = false := by
  cases hw : PyJson.isJsonWs c
  · rfl
  · exfalso
    simp only [PyJson.isJsonWs, Bool.or_eq_true, decide_eq_true_eq] at hw
    rcases hw with ((rfl | rfl) | rfl) | rfl <;> simp [Char.isDigit] at h

theorem takeWhile_all_append (p : Char → Bool) (ds rest : List Char)
    (h : ∀ c ∈ ds, p c = true) :
    (ds ++ rest).takeWhile p = ds ++ rest.takeWhile p := by
  induction ds with
  | nil => rfl
  | cons d dt ih =>
    rw [List.cons_append, List.takeWhile_cons_of_pos (h d (by simp))]
    rw [ih fun c hc => h c (by simp [hc]), List.cons_append]

theorem parse_string_body_plain (s : List Char) (acc rest : List Char)
    (h : ∀ c ∈ s, plainChar c = true) :
    PyJson.parse_string_body acc (s ++ '"' :: rest)
      = some (⟨acc.reverse ++ s⟩, rest) := by
  induction s generalizing acc with
  | nil =>
    rw [List.nil_append, PyJson.parse_string_body.eq_def]
    dsimp only
    simp
  | cons c s2 ih =>
    have hc := h c (by simp)
    simp only [plainChar, Bool.and_eq_true, decide_eq_true_eq] at hc
    obtain ⟨⟨h1, h2⟩, h3⟩ := hc
    rw [List.cons_append, PyJson.parse_string_body.eq_def]
    dsimp only
    rw [if_neg h1, if_neg h2, if_neg (by omega)]
    rw [ih (c :: acc) fun c2 hc2 => h c2 (by simp [hc2])]
    simp

theorem parse_number_digits (ds : List Char) (r : Char) (rest : List Char)
    (hgood : goodVal (.vNum ds)) (hr : r = ',' ∨ r = '}') :
    PyJson.parse_number (ds ++ r :: rest)
      = some (((PyJson.digitsToNat ds : Int), 0), r :: rest) := by
  obtain ⟨hne, hdig, hlead⟩ := hgood
  have hrd : r.isDigit = false := by rcases hr with rfl | rfl <;> decide
  have hrdot : (r = '.') = False := by rcases hr with rfl | rfl <;> simp
  have hre : (r = 'e' ∨ r = 'E') = False := by rcases hr with rfl | rfl <;> simp
  cases ds with
  | nil => exact absurd rfl hne
  | cons d dt =>
    have hd : d.isDigit = true := hdig d (by simp)
    by_cases hd0 : d = '0'
    · subst hd0
      have hdt : dt = [] := by
        have h00 := hlead rfl
        injection h00
      subst hdt
      rcases hr with rfl | rfl <;> rfl
    · have htw : List.takeWhile Char.isDigit (d :: (dt ++ r :: rest)) = d :: dt := by
        rw [show d :: (dt ++ r :: rest) = (d :: dt) ++ r :: rest from rfl]
        rw [takeWhile_all_append Char.isDigit (d :: dt) (r :: rest) hdig]
        rw [List.takeWhile_cons_of_neg (by simp [hrd])]
        simp
      have hdrop : List.drop (d :: dt).length (d :: (dt ++ r :: rest)) = r :: rest :=
        List.drop_left (d :: dt) (r :: rest)
      simp only [PyJson.parse_number, List.cons_append, eq_false (digit_ne d '-' hd (by decide)),
        if_false, hd, not_true, eq_false hd0, htw, hdrop, hrdot, hre, List.append_nil,
        Bool.false_eq_true]
      simp


/-- The tail of `parse_members` after a member's value: dispatch on the next
token (definitionally equal to the corresponding stage of `parse_members`). -/
def membersAfterValue (fuel : Nat) (k : String) (v : Json)
    (acc : List (String × Json)) (cs : List Char) : Option (Json × List Char) :=
  match cs with
  | ',' :: rest5 => PyJson.parse_members fuel (PyJson.skipWs rest5) ((k, v) :: acc)
  | '}' :: rest5 => some (.obj (((k, v) :: acc).reverse), rest5)
  | _ => none

/-- The tail of `parse_members` after a member's colon. -/
def membersAfterColon (fuel : Nat) (k : String) (acc : List (String × Json))
    (cs : List Char) : Option (Json × List Char) :=
  match PyJson.parse_value fuel cs with
  | none => none
  | some (v, rest4) => membersAfterValue fuel k v acc (PyJson.skipWs rest4)

/-- The tail of `parse_members` after a member's key. -/
def membersAfterKey (fuel : Nat) (k : String) (acc : List (String × Json))
    (cs : List Char) : Option (Json × List Char) :=
  match cs with
  | ':' :: rest3 => membersAfterColon fuel k acc rest3
  | _ => none

theorem parse_members_quote (fuel : Nat) (t : List Char) (acc : List (String × Json)) :
    PyJson.parse_members (fuel + 1) ('"' :: t) acc
      = match PyJson.parse_string_body [] t with
        | none => none
        | some (k, rest2) => membersAfterKey fuel k acc (PyJson.skipWs rest2) := rfl

theorem membersAfterKey_colon (fuel : Nat) (k : String) (acc : List (String × Json))
    (Z : List Char) :
    membersAfterKey fuel k acc (':' :: Z) = membersAfterColon fuel k acc Z := rfl

theorem membersAfterValue_comma (fuel : Nat) (k : String) (v : Json)
    (acc : List (String × Json)) (Z : List Char) :
    membersAfterValue fuel k v acc (',' :: Z)
      = PyJson.parse_members fuel (PyJson.skipWs Z) ((k, v) :: acc) := rfl

theorem membersAfterValue_brace (fuel : Nat) (k : String) (v : Json)
    (acc : List (String × Json)) (Z : List Char) :
    membersAfterValue fuel k v acc ('}' :: Z)
      = some (.obj (((k, v) :: acc).reverse), Z) := rfl


theorem parse_value_renderVal (fuel : Nat) (v : FlatVal) (r : Char) (rest : List Char)
    (hv : goodVal v) (hr : r = ',' ∨ r = '}') :
    ∃ w, PyJson.parse_value (fuel + 1) (renderVal v ++ r :: rest) = some (w, r :: rest) := by
  cases v with
  | vStr s =>
    refine ⟨.str ⟨s⟩, ?_⟩
    rw [show renderVal (.vStr s) ++ r :: rest = '"' :: (s ++ '"' :: r :: rest) from by
      simp [renderVal]]
    rw [PyJson.parse_value.eq_def]
    dsimp only
    rw [show PyJson.skipWs ('"' :: (s ++ '"' :: r :: rest)) = '"' :: (s ++ '"' :: r :: rest)
      from List.dropWhile_cons_of_neg (by decide)]
    dsimp only
    simp only [reduceIte]
    rw [parse_string_body_plain s [] (r :: rest) hv]
    simp
  | vNum ds =>
    refine ⟨.num (PyJson.digitsToNat ds) 0, ?_⟩
    obtain ⟨hne, hdig, hlead⟩ := hv
    cases ds with
    | nil => exact absurd rfl hne
    | cons d dt =>
      have hd : d.isDigit = true := hdig d (by simp)
      rw [show renderVal (.vNum (d :: dt)) ++ r :: rest = d :: (dt ++ r :: rest) from rfl]
      rw [PyJson.parse_value.eq_def]
      dsimp only
      rw [show PyJson.skipWs (d :: (dt ++ r :: rest)) = d :: (dt ++ r :: rest)
        from List.dropWhile_cons_of_neg (by simp [digit_not_jsonWs d hd])]
      dsimp only
      rw [if_neg (digit_ne d '{' hd (by decide)), if_neg (digit_ne d '[' hd (by decide)),
        if_neg (digit_ne d '"' hd (by decide)), if_neg (digit_ne d 't' hd (by decide)),
        if_neg (digit_ne d 'f' hd (by decide)), if_neg (digit_ne d 'n' hd (by decide)),
        if_pos (Or.inr hd)]
      rw [show d :: (dt ++ r :: rest) = (d :: dt) ++ r :: rest from rfl]
      rw [parse_number_digits (d :: dt) r rest ⟨hne, hdig, hlead⟩ hr]
  | vTrue => exact ⟨.bool true, rfl⟩
  | vFalse => exact ⟨.bool false, rfl⟩
  | vNull => exact ⟨.null, rfl⟩

theorem renderPairs_head (kv : List Char × FlatVal) (rest : List (List Char × FlatVal)) :
    ∃ t, renderPairs (kv :: rest) = '"' :: t := by
  refine ⟨kv.1 ++ '"' :: ':' :: renderVal kv.2
    ++ (if rest.isEmpty then [] else ',' :: renderPairs rest), ?_⟩
  simp [renderPairs, renderPair]

theorem parse_members_render (kvs : List (List Char × FlatVal)) (fuel : Nat)
    (acc : List (String × Json)) (h : goodKvs kvs) (hne : kvs ≠ [])
    (hfuel : kvs.length + 1 ≤ fuel) :
    ∃ m, PyJson.parse_members fuel (renderPairs kvs ++ ['}']) acc = some (m, []) := by
  induction kvs generalizing fuel acc with
  | nil => exact absurd rfl hne
  | cons kv rest2 ih =>
    obtain ⟨f2, rfl⟩ : ∃ f2, fuel = f2 + 1 + 1 := by
      simp only [List.length_cons] at hfuel
      exact ⟨fuel - 2, by omega⟩
    have hkv := h kv (by simp)
    have hcs : renderPairs (kv :: rest2) ++ ['}']
        = '"' :: (kv.1 ++ '"' :: (':' :: (renderVal kv.2
          ++ ((if rest2.isEmpty then [] else ',' :: renderPairs rest2) ++ ['}'])))) := by
      simp [renderPairs, renderPair]
    rw [hcs, parse_members_quote]
    rw [parse_string_body_plain kv.1 [] _ hkv.1.2]
    dsimp only
    rw [show PyJson.skipWs (':' :: (renderVal kv.2
        ++ ((if rest2.isEmpty then [] else ',' :: renderPairs rest2) ++ ['}'])))
        = ':' :: (renderVal kv.2
          ++ ((if rest2.isEmpty then [] else ',' :: renderPairs rest2) ++ ['}']))
      from List.dropWhile_cons_of_neg (by decide)]
    rw [membersAfterKey_colon]
    cases rest2 with
    | nil =>
      obtain ⟨w, hw⟩ := parse_value_renderVal f2 kv.2 '}' [] hkv.2 (Or.inr rfl)
      rw [show ((if ([] : List (List Char × FlatVal)).isEmpty then []
          else ',' :: renderPairs []) ++ ['}']) = '}' :: ([] : List Char) from rfl]
      rw [membersAfterColon, hw]
      dsimp only
      rw [show PyJson.skipWs ('}' :: ([] : List Char)) = '}' :: ([] : List Char)
        from List.dropWhile_cons_of_neg (by decide)]
      rw [membersAfterValue_brace]
      exact ⟨_, rfl⟩
    | cons kv2 rest3 =>
      obtain ⟨w, hw⟩ := parse_value_renderVal f2 kv.2 ','
        (renderPairs (kv2 :: rest3) ++ ['}']) hkv.2 (Or.inl rfl)
      rw [show ((if (kv2 :: rest3).isEmpty then [] else ',' :: renderPairs (kv2 :: rest3))
          ++ ['}']) = ',' :: (renderPairs (kv2 :: rest3) ++ ['}']) from by simp]
      rw [membersAfterColon, hw]
      dsimp only
      rw [show PyJson.skipWs (',' :: (renderPairs (kv2 :: rest3) ++ ['}']))
          = ',' :: (renderPairs (kv2 :: rest3) ++ ['}'])
        from List.dropWhile_cons_of_neg (by decide)]
      rw [membersAfterValue_comma]
      obtain ⟨t, ht⟩ := renderPairs_head kv2 rest3
      rw [show PyJson.skipWs (renderPairs (kv2 :: rest3) ++ ['}'])
          = renderPairs (kv2 :: rest3) ++ ['}'] from by
        rw [ht, List.cons_append]
        exact List.dropWhile_cons_of_neg (by decide)]
      exact ih (f2 + 1) _ (fun kv3 h3 => h kv3 (by simp [h3])) (by simp)
        (by simp only [List.length_cons] at hfuel ⊢; omega)


theorem renderPair_len (kv : List Char × FlatVal) : 1 ≤ (renderPair kv).length := by
  simp only [renderPair, List.cons_append, List.length_cons, List.length_append]
  omega

theorem renderPairs_len (kvs : List (List Char × FlatVal)) :
    kvs.length ≤ (renderPairs kvs).length := by
  induction kvs with
  | nil => simp [renderPairs]
  | cons kv rest ih =>
    cases rest with
    | nil =>
      have h1 := renderPair_len kv
      simp only [renderPairs, List.isEmpty_nil, if_true, List.append_nil,
        List.length_cons, List.length_nil]
      omega
    | cons kv2 r =>
      have h1 := renderPair_len kv
      rw [show renderPairs (kv :: kv2 :: r) = renderPair kv ++ (',' :: renderPairs (kv2 :: r))
        from by simp [renderPairs]]
      simp only [List.length_append, List.length_cons] at *
      omega

theorem parse_value_brace (fuel : Nat) (X : List Char) :
    PyJson.parse_value (fuel + 1) ('{' :: X)
      = match PyJson.skipWs X with
        | '}' :: rest2 => some (.obj [], rest2)
        | _ => PyJson.parse_members fuel (PyJson.skipWs X) [] := rfl

theorem loads_renderObj (kvs : List (List Char × FlatVal)) (h : goodKvs kvs) :
    ∃ m, PyJson.loads (renderObj kvs) = some m := by
  cases kvs with
  | nil => exact ⟨.obj [], rfl⟩
  | cons kv rest2 =>
    obtain ⟨t, ht⟩ := renderPairs_head kv rest2
    obtain ⟨m, hm⟩ := parse_members_render (kv :: rest2)
      ((renderPairs (kv :: rest2) ++ ['}']).length + 1) [] h (by simp) (by
        have h1 := renderPairs_len (kv :: rest2)
        simp only [List.length_append, List.length_cons, List.length_nil] at *
        omega)
    refine ⟨m, ?_⟩
    unfold PyJson.loads
    rw [show renderObj (kv :: rest2) = '{' :: (renderPairs (kv :: rest2) ++ ['}']) from rfl]
    rw [List.length_cons, parse_value_brace]
    have hskip : PyJson.skipWs (renderPairs (kv :: rest2) ++ ['}'])
        = renderPairs (kv :: rest2) ++ ['}'] := by
      rw [ht, List.cons_append]
      exact List.dropWhile_cons_of_neg (by decide)
    rw [hskip]
    rw [show (match (renderPairs (kv :: rest2) ++ ['}'] : List Char) with
        | '}' :: rest2 => some (Json.obj [], rest2)
        | _ => PyJson.parse_members ((renderPairs (kv :: rest2) ++ ['}']).length + 1)
            (renderPairs (kv :: rest2) ++ ['}']) [])
        = PyJson.parse_members ((renderPairs (kv :: rest2) ++ ['}']).length + 1)
            (renderPairs (kv :: rest2) ++ ['}']) [] from by
      rw [ht, List.cons_append]
      rfl]
    rw [hm]
    rfl


theorem renderPairs_split (kvs : List (List Char × FlatVal)) (j : Nat)
    (kv : List Char × FlatVal) (hget : kvs.get? j = some kv) :
    ∃ r, renderPairs kvs
      = renderPairs (kvs.take j) ++ (if j = 0 then [] else [','])
        ++ ('"' :: kv.1) ++ '"' :: ':' :: (renderVal kv.2 ++ r) := by
  induction kvs generalizing j with
  | nil => simp at hget
  | cons kv0 rest ih =>
    cases j with
    | zero =>
      rw [List.get?_cons_zero] at hget
      injection hget with hkv
      subst hkv
      refine ⟨(if rest.isEmpty then [] else ',' :: renderPairs rest), ?_⟩
      simp [renderPairs, renderPair]
    | succ j2 =>
      rw [List.get?_cons_succ] at hget
      obtain ⟨r0, r1, rfl⟩ : ∃ r0 r1, rest = r0 :: r1 := by
        cases rest with
        | nil => simp at hget
        | cons r0 r1 => exact ⟨r0, r1, rfl⟩
      obtain ⟨r, hr⟩ := ih j2 hget
      cases j2 with
      | zero =>
        refine ⟨r, ?_⟩
        rw [show renderPairs (kv0 :: r0 :: r1)
            = renderPair kv0 ++ (',' :: renderPairs (r0 :: r1)) from by simp [renderPairs]]
        rw [hr]
        simp [renderPairs]
      | succ j3 =>
        refine ⟨r, ?_⟩
        rw [show renderPairs (kv0 :: r0 :: r1)
            = renderPair kv0 ++ (',' :: renderPairs (r0 :: r1)) from by simp [renderPairs]]
        rw [hr]
        rw [show (kv0 :: r0 :: r1).take (j3 + 1 + 1) = kv0 :: (r0 :: r1).take (j3 + 1)
          from rfl]
        rw [show renderPairs (kv0 :: (r0 :: r1).take (j3 + 1))
            = renderPair kv0 ++ (',' :: renderPairs ((r0 :: r1).take (j3 + 1)))
          from by simp [renderPairs]]
        simp

theorem renderObj_truncAt_prefix (kvs : List (List Char × FlatVal)) (pos : CutPos)
    (hv : validCut kvs pos) :
    ∃ r, renderObj kvs = truncAt kvs pos ++ r := by
  cases pos with
  | afterBrace => exact ⟨renderPairs kvs ++ ['}'], rfl⟩
  | afterPair j =>
    obtain ⟨hj1, hj2⟩ := hv
    rcases Nat.lt_or_ge j kvs.length with hlt | hge
    · obtain ⟨kv, hget⟩ : ∃ kv, kvs.get? j = some kv := by
        rw [List.get?_eq_get hlt]
        exact ⟨_, rfl⟩
      obtain ⟨r, hr⟩ := renderPairs_split kvs j kv hget
      refine ⟨(if j = 0 then [] else [','])
        ++ ('"' :: kv.1) ++ '"' :: ':' :: (renderVal kv.2 ++ r) ++ ['}'], ?_⟩
      show ('{' :: renderPairs kvs) ++ ['}'] = ('{' :: renderPairs (kvs.take j)) ++ _
      rw [hr]
      simp
    · have htk : kvs.take j = kvs := List.take_of_length_le hge
      refine ⟨['}'], ?_⟩
      show ('{' :: renderPairs kvs) ++ ['}'] = ('{' :: renderPairs (kvs.take j)) ++ ['}']
      rw [htk]
  | afterComma j =>
    obtain ⟨hj1, hj2⟩ := hv
    obtain ⟨kv, hget⟩ : ∃ kv, kvs.get? j = some kv := by
      rw [List.get?_eq_get hj2]
      exact ⟨_, rfl⟩
    obtain ⟨r, hr⟩ := renderPairs_split kvs j kv hget
    rw [if_neg (by omega)] at hr
    refine ⟨('"' :: kv.1) ++ '"' :: ':' :: (renderVal kv.2 ++ r) ++ ['}'], ?_⟩
    show ('{' :: renderPairs kvs) ++ ['}'] = (('{' :: renderPairs (kvs.take j)) ++ [',']) ++ _
    rw [hr]
    simp
  | afterColon j =>
    have hjlen : j < kvs.length := hv
    obtain ⟨kv, hget⟩ : ∃ kv, kvs.get? j = some kv := by
      rw [List.get?_eq_get hjlen]
      exact ⟨_, rfl⟩
    obtain ⟨r, hr⟩ := renderPairs_split kvs j kv hget
    refine ⟨renderVal kv.2 ++ r ++ ['}'], ?_⟩
    rw [show truncAt kvs (.afterColon j)
        = ('{' :: renderPairs (kvs.take j)) ++ (if j = 0 then [] else [','])
          ++ (match kvs.get? j with
              | some kv => '"' :: kv.1 ++ ['"', ':']
              | none => []) from rfl]
    rw [hget]
    show ('{' :: renderPairs kvs) ++ ['}'] = _
    rw [hr]
    simp


theorem truncAt_head (kvs : List (List Char × FlatVal)) (pos : CutPos) :
    ∃ t, truncAt kvs pos = '{' :: t := by
  cases pos with
  | afterBrace => exact ⟨[], rfl⟩
  | afterPair j => exact ⟨renderPairs (kvs.take j), rfl⟩
  | afterComma j => exact ⟨renderPairs (kvs.take j) ++ [','], rfl⟩
  | afterColon j =>
    refine ⟨renderPairs (kvs.take j) ++ (if j = 0 then [] else [','])
      ++ (match kvs.get? j with
          | some kv => '"' :: kv.1 ++ ['"', ':']
          | none => []), ?_⟩
    show ('{' :: renderPairs (kvs.take j)) ++ _ ++ _ = _
    simp

theorem renderObj_ne_nil (kvs : List (List Char × FlatVal)) : renderObj kvs ≠ [] := by
  simp [renderObj]

end FlatJson

namespace FlatJson

instance goodKeyDec (k : List Char) : Decidable (goodKey k) := by
  unfold goodKey
  infer_instance

instance goodValDec (v : FlatVal) : Decidable (goodVal v) := by
  cases v <;> simp only [goodVal] <;> infer_instance

instance goodKvsDec (kvs : List (List Char × FlatVal)) : Decidable (goodKvs kvs) := by
  unfold goodKvs
  infer_instance

instance validCutDec (kvs : List (List Char × FlatVal)) (pos : CutPos) :
    Decidable (validCut kvs pos) := by
  cases pos <;> simp only [validCut] <;> infer_instance

/-- The repair stage of `_parse_response` succeeds on every token-boundary
truncation: the repaired text is the rendered object over the kept members,
which `json.loads` accepts. -/
theorem repairStage_truncAt (kvs : List (List Char × FlatVal)) (pos : CutPos)
    (h : goodKvs kvs) (hv : validCut kvs pos) :
    (DealService.repairStage (truncAt kvs pos)).isSome = true := by
  obtain ⟨t, ht⟩ := truncAt_head kvs pos
  have hfind : (truncAt kvs pos).findIdx? (· = '{') = some 0 := by
    rw [ht, List.findIdx?_cons]
    simp
  obtain ⟨m, hm⟩ := loads_renderObj (kvs.take (keepCount pos))
    (goodKvs_take kvs (keepCount pos) h)
  unfold DealService.repairStage
  rw [hfind]
  dsimp only
  rw [List.drop_zero, repair_truncAt kvs pos h hv]
  rw [if_neg (renderObj_ne_nil (kvs.take (keepCount pos))), hm]
  rfl

theorem parse_pipeline_truncAt (kvs : List (List Char × FlatVal)) (pos : CutPos)
    (h : goodKvs kvs) (hv : validCut kvs pos) :
    (DealService.parse_pipeline (truncAt kvs pos)).isSome = true := by
  unfold DealService.parse_pipeline
  cases hl : PyJson.loads (truncAt kvs pos) with
  | some v => rfl
  | none =>
    cases hs : DealService.substringStage (truncAt kvs pos) with
    | some v => rfl
    | none =>
      dsimp only
      exact repairStage_truncAt kvs pos h hv

end FlatJson

/-- C5: corrected.  The truncation repair closes a dangling string and the
open brace, but a truncation that strands a bare key makes the repaired text
invalid JSON and the whole three-stage parse fail (see the counterexample).
Amended: for a flat JSON object rendered without whitespace, a truncation at
any token boundary — right after the opening brace, after a complete member,
after a member's comma, or after a member key's colon — is a genuine prefix
of the document, and the repair produces exactly the rendered object over the
members kept, which `json.loads` accepts, so `_parse_response` succeeds. -/
theorem C5_token_boundary_truncation_repaired
    (kvs : List (List Char × FlatJson.FlatVal)) (pos : FlatJson.CutPos)
    (h : FlatJson.goodKvs kvs) (hv : FlatJson.validCut kvs pos) :
    (∃ r, FlatJson.renderObj kvs = FlatJson.truncAt kvs pos ++ r) ∧
    (PyJson.loads (FlatJson.renderObj kvs)).isSome = true ∧
    DealService.repair_truncated_json (FlatJson.truncAt kvs pos)
      = FlatJson.renderObj (kvs.take (FlatJson.keepCount pos)) ∧
    (DealService.parse_pipeline (FlatJson.truncAt kvs pos)).isSome = true := by
  refine ⟨FlatJson.renderObj_truncAt_prefix kvs pos hv, ?_,
    FlatJson.repair_truncAt kvs pos h hv,
    FlatJson.parse_pipeline_truncAt kvs pos h hv⟩
  obtain ⟨m, hm⟩ := FlatJson.loads_renderObj kvs h
  rw [hm]
  rfl

/-- Witness for C5's amended theorem: the two-member object
`{"a":1,"b":"x"}` truncated right after the colon of its second member
(`{"a":1,"b":`): the truncated text is a prefix, the full render parses, the
repair yields `{"a":1}`, and the three-stage parse succeeds. -/
theorem C5_token_boundary_truncation_repaired_witness :
    (∃ r, FlatJson.renderObj [(['a'], FlatJson.FlatVal.vNum ['1']),
        (['b'], FlatJson.FlatVal.vStr ['x'])]
      = FlatJson.truncAt [(['a'], FlatJson.FlatVal.vNum ['1']),
          (['b'], FlatJson.FlatVal.vStr ['x'])] (.afterColon 1) ++ r) ∧
    (PyJson.loads (FlatJson.renderObj [(['a'], FlatJson.FlatVal.vNum ['1']),
        (['b'], FlatJson.FlatVal.vStr ['x'])])).isSome = true ∧
    DealService.repair_truncated_json
        (FlatJson.truncAt [(['a'], FlatJson.FlatVal.vNum ['1']),
          (['b'], FlatJson.FlatVal.vStr ['x'])] (.afterColon 1))
      = FlatJson.renderObj ([(['a'], FlatJson.FlatVal.vNum ['1']),
          (['b'], FlatJson.FlatVal.vStr ['x'])].take 1) ∧
    (DealService.parse_pipeline
        (FlatJson.truncAt [(['a'], FlatJson.FlatVal.vNum ['1']),
          (['b'], FlatJson.FlatVal.vStr ['x'])] (.afterColon 1))).isSome = true :=
  C5_token_boundary_truncation_repaired
    [(['a'], FlatJson.FlatVal.vNum ['1']), (['b'], FlatJson.FlatVal.vStr ['x'])]
    (.afterColon 1) (by decide) (by decide)
